import Mathlib

/-!
Shallow embedding of the grep implementation in src/main.rs (a small
backtracking regular-expression engine), together with proofs about the
claims of the specification.

Modelling conventions:
* Rust `&str` values are modelled as `List Char`; offsets are counted in
  characters (the program is only byte=char faithful on ASCII input, as is
  the Rust code itself, whose `&s[i..]` slicing panics on non-boundary
  indices).
* The process-global state (`BACKREFS : RwLock<HashMap<usize, String>>` and
  `NUM_OF_BACKREFS : AtomicUsize`) is threaded explicitly as `GState`.
* `Res α` is the outcome of running a piece of the program: `ok` for a
  normal return, `crash` for a Rust panic (`unreachable!()`, `todo!()`,
  `unwrap()` on `None`, out-of-range string slicing), and `fuelOut` for
  running out of fuel (the matcher can genuinely diverge, e.g. a greedy
  quantifier over a node that matches zero characters loops forever).
* `usize` subtraction `i - 1` in the backreference lookup is modelled with
  release-mode wrap-around semantics (`backrefKey`).
* Rust `char::is_alphanumeric` is Unicode-aware; we model it with the ASCII
  `Char.isAlphanum`, which agrees on ASCII input.  No claim depends on the
  behaviour of `\w` outside ASCII.
-/

inductive Modifier where
  | ZeroOrOne
  | ZeroOrMore
  | OneOrMore
deriving DecidableEq, Repr

mutual
inductive PatternKind where
  | Alternatives (v : List SubPattern)
  | NotAlternatives (v : List SubPattern)
  | Literal (c : Char)
  | AlphaNumeric
  | Digit
  | InputStart
  | InputEnd
  | Any
  | AlternateGroups (id : Nat) (groups : List (List SubPattern))
  | BackRef (i : Nat)
deriving Repr

inductive SubPattern where
  | mk (kind : PatternKind) (modifier : Option Modifier)
deriving Repr
end

def SubPattern.kind : SubPattern → PatternKind
  | .mk k _ => k

def SubPattern.modifier : SubPattern → Option Modifier
  | .mk _ m => m

/-- Process-global mutable state: the `BACKREFS` table (an association list
with the semantics of the `HashMap`; keys are unique) and the
`NUM_OF_BACKREFS` counter. -/
structure GState where
  table : List (Nat × List Char)
  counter : Nat
deriving DecidableEq, Repr

/-- Outcome of running program code: normal return, panic, or out of fuel
(the last one only for the matcher, which can really diverge). -/
inductive Res (α : Type) where
  | ok : α → Res α
  | crash : Res α
  | fuelOut : Res α
deriving Repr

def Res.bind {α β : Type} : Res α → (α → Res β) → Res β
  | .ok a, f => f a
  | .crash, _ => .crash
  | .fuelOut, _ => .fuelOut

@[simp] theorem Res.bind_ok {α β : Type} (a : α) (f : α → Res β) :
    Res.bind (.ok a) f = f a := rfl

@[simp] theorem Res.bind_crash {α β : Type} (f : α → Res β) :
    Res.bind (.crash : Res α) f = .crash := rfl

@[simp] theorem Res.bind_fuelOut {α β : Type} (f : α → Res β) :
    Res.bind (.fuelOut : Res α) f = .fuelOut := rfl

/-- `HashMap::get` on the association list. -/
def lookupTable : List (Nat × List Char) → Nat → Option (List Char)
  | [], _ => none
  | (k, v) :: rest, key => if k = key then some v else lookupTable rest key

/-- `BACKREFS.write().unwrap().entry(key).or_insert(val)`: insert only when
the key is absent. -/
def orInsert (key : Nat) (val : List Char) (t : List (Nat × List Char)) :
    List (Nat × List Char) :=
  match lookupTable t key with
  | some _ => t
  | none => (key, val) :: t

/-- Rust `&s[k..]`: panics when the index is out of range. -/
def sliceFrom (s : List Char) (k : Nat) : Res (List Char) :=
  if k ≤ s.length then .ok (s.drop k) else .crash

/-- Rust `&s[..k]`: panics when the index is out of range. -/
def sliceTo (s : List Char) (k : Nat) : Res (List Char) :=
  if k ≤ s.length then .ok (s.take k) else .crash

/-- The key used by the `BackRef(i)` matcher: Rust computes `*i - 1` on a
`usize`, which wraps around in a release build (`i = 0` yields
`2^64 - 1`). -/
def backrefKey (i : Nat) : Nat := (i + (2 ^ 64 - 1)) % 2 ^ 64

/-- Value of a decimal digit character (`nc.encode_utf8(..).parse::<usize>()`
on a single digit). -/
def digitVal (c : Char) : Nat := c.toNat - '0'.toNat

/-- `chars.peek()` test attaching a quantifier modifier to the node just
produced. -/
def peekMod (cs : List Char) : Option Modifier :=
  match cs with
  | [] => none
  | c :: _ =>
    if c = '+' then some .OneOrMore
    else if c = '*' then some .ZeroOrMore
    else if c = '?' then some .ZeroOrOne
    else none

def isAltGroups : PatternKind → Bool
  | .AlternateGroups _ _ => true
  | _ => false

def kindIsInputStart : PatternKind → Bool
  | .InputStart => true
  | _ => false

/-- The backtracking eligibility test of `match_pattern` (lines 354-364):
the previous node is quantified `ZeroOrMore`/`OneOrMore`, or is an
`AlternateGroups` node. -/
def isEligible (sp : SubPattern) : Bool :=
  match sp.modifier with
  | some .ZeroOrMore => true
  | some .OneOrMore => true
  | _ => isAltGroups sp.kind

/-- The `(`-scanner of `parse_pattern` (lines 62-84): walk forward tracking
nesting depth, splitting alternatives at depth-0 `|`, stopping at the
closing `)` (depth going negative) or at end of input.  Returns the raw
alternative texts and the rest of the pattern.  The Rust `i32` depth is
modelled as a `Nat`; it is decremented only when positive, and the loop
breaks exactly when a `)` is seen at depth 0. -/
def scanG : List Char → Nat → List Char → List (List Char) →
    (List (List Char) × List Char)
  | [], _, cur, acc => (acc ++ [cur], [])
  | c :: cs, depth, cur, acc =>
    if c = '(' then scanG cs (depth + 1) (cur ++ [c]) acc
    else if c = ')' then
      (if depth = 0 then (acc ++ [cur], cs) else scanG cs (depth - 1) (cur ++ [c]) acc)
    else if c = '|' then
      (if depth = 0 then scanG cs 0 [] (acc ++ [cur]) else scanG cs depth (cur ++ [c]) acc)
    else scanG cs depth (cur ++ [c]) acc

/-- The `[`-scanner of `parse_pattern` (lines 106-111): push characters until
`]` or end of input. -/
def scanCAux : List Char → List Char → (List Char × List Char)
  | [], cur => (cur, [])
  | c :: cs, cur => if c = ']' then (cur, cs) else scanCAux cs (cur ++ [c])

mutual
/-- Fueled version of `parse_pattern` (lines 43-174).  The counter argument
is the value of the global `NUM_OF_BACKREFS`; the result is the node list
and the updated counter.  `crash` models the `todo!()` panics on
unrecognised escapes and the `unreachable!()` on `[` at end of pattern.
Fuel `5 * length + 5` always suffices (see `parse_patternF_adequate`). -/
def parse_patternF : Nat → List Char → Nat → Res (List SubPattern × Nat)
  | 0, _, _ => .fuelOut
  | _ + 1, [], ctr => .ok ([], ctr)
  | f + 1, c :: cs, ctr =>
    if c = '+' ∨ c = '*' ∨ c = '?' then
      -- handled on the previous iteration (the peek), skip
      parse_patternF f cs ctr
    else if c = '.' then
      (parse_patternF f cs ctr).bind fun (rest, c2) =>
        .ok (.mk .Any (peekMod cs) :: rest, c2)
    else if c = '^' then
      (parse_patternF f cs ctr).bind fun (rest, c2) =>
        .ok (.mk .InputStart (peekMod cs) :: rest, c2)
    else if c = '$' then
      (parse_patternF f cs ctr).bind fun (rest, c2) =>
        .ok (.mk .InputEnd (peekMod cs) :: rest, c2)
    else if c = '(' then
      let sc := scanG cs 0 [] []
      (parse_listF f sc.1 (ctr + 1)).bind fun (gsubs, c2) =>
        (parse_patternF f sc.2 c2).bind fun (rest, c3) =>
          .ok (.mk (.AlternateGroups ctr gsubs) (peekMod sc.2) :: rest, c3)
    else if c = '[' then
      match cs with
      | [] => .crash  -- unreachable!() at line 103
      | nc :: cs2 =>
        if nc = '^' then
          let sc := scanCAux cs2 []
          (parse_patternF f sc.1 ctr).bind fun (v, c2) =>
            (parse_patternF f sc.2 c2).bind fun (rest, c3) =>
              .ok (.mk (.NotAlternatives v) (peekMod sc.2) :: rest, c3)
        else
          let sc := scanCAux cs2 [nc]
          (parse_patternF f sc.1 ctr).bind fun (v, c2) =>
            (parse_patternF f sc.2 c2).bind fun (rest, c3) =>
              .ok (.mk (.Alternatives v) (peekMod sc.2) :: rest, c3)
    else if c = '\\' then
      match cs with
      | [] => .crash  -- todo!() at line 149
      | nc :: cs2 =>
        if nc = '\\' then
          (parse_patternF f cs2 ctr).bind fun (rest, c2) =>
            .ok (.mk (.Literal '\\') (peekMod cs2) :: rest, c2)
        else if nc = 'd' then
          (parse_patternF f cs2 ctr).bind fun (rest, c2) =>
            .ok (.mk .Digit (peekMod cs2) :: rest, c2)
        else if nc = 'w' then
          (parse_patternF f cs2 ctr).bind fun (rest, c2) =>
            .ok (.mk .AlphaNumeric (peekMod cs2) :: rest, c2)
        else if nc.isDigit then
          (parse_patternF f cs2 ctr).bind fun (rest, c2) =>
            .ok (.mk (.BackRef (digitVal nc)) (peekMod cs2) :: rest, c2)
        else .crash  -- todo!() at line 148
    else
      (parse_patternF f cs ctr).bind fun (rest, c2) =>
        .ok (.mk (.Literal c) (peekMod cs) :: rest, c2)

/-- `groups.iter().map(|group| parse_pattern(group)).collect()` (line 88),
threading the global counter left to right. -/
def parse_listF : Nat → List (List Char) → Nat → Res (List (List SubPattern) × Nat)
  | 0, _, _ => .fuelOut
  | _ + 1, [], ctr => .ok ([], ctr)
  | f + 1, g :: gs, ctr =>
    (parse_patternF f g ctr).bind fun (sub, c2) =>
      (parse_listF f gs c2).bind fun (subs, c3) =>
        .ok (sub :: subs, c3)
end

/-- Total `parse_pattern` (lines 43-174): fuel `5 * length + 5` is always
sufficient (`parse_pattern_no_fuelOut`). -/
def parse_pattern (p : List Char) (ctr : Nat) : Res (List SubPattern × Nat) :=
  parse_patternF (5 * p.length + 5) p ctr

/-- Total version of the recursive group compilation, with its own adequate
fuel. -/
def parse_list (gs : List (List Char)) (ctr : Nat) :
    Res (List (List SubPattern) × Nat) :=
  parse_listF (5 * (gs.map List.length).sum + 5 * gs.length + 1) gs ctr

mutual
/-- `match_subpattern_kind` (lines 176-252). -/
def match_subpattern_kind : Nat → List Char → PatternKind → GState →
    Res (Option Nat × GState)
  | 0, _, _, _ => .fuelOut
  | f + 1, rem, kind, σ =>
    match kind with
    | .InputStart => .crash  -- unreachable!() at line 178
    | .InputEnd => .ok (if rem.isEmpty then some 0 else none, σ)
    | .Any => .ok (if rem.isEmpty then none else some 1, σ)
    | .Literal l =>
      .ok (match rem with
           | [] => none
           | c :: _ => if c = l then some 1 else none, σ)
    | .Digit =>
      .ok (match rem with
           | [] => none
           | c :: _ => if c.isDigit then some 1 else none, σ)
    | .AlphaNumeric =>
      .ok (match rem with
           | [] => none
           | c :: _ => if c.isAlphanum ∨ c = '_' then some 1 else none, σ)
    | .Alternatives v => alternatives_loop f rem v σ
    | .NotAlternatives v => not_alternatives_loop f rem v σ
    | .AlternateGroups id gs => groups_loop f rem id gs σ
    | .BackRef i =>
      match lookupTable σ.table (backrefKey i) with
      | none => .ok (none, σ)
      | some g =>
        (match_pattern f rem g true σ).bind fun (r, σ2) =>
          match r with
          | some (s, e) => if s = 0 then .ok (some e, σ2) else .ok (none, σ2)
          | none => .ok (none, σ2)

/-- The `Alternatives` member loop (lines 208-215). -/
def alternatives_loop : Nat → List Char → List SubPattern → GState →
    Res (Option Nat × GState)
  | 0, _, _, _ => .fuelOut
  | f + 1, rem, v, σ =>
    match v with
    | [] => .ok (none, σ)
    | sp :: sps =>
      (match_subpattern f rem sp σ).bind fun (r, σ2) =>
        match r with
        | some off => .ok (some off, σ2)
        | none => alternatives_loop f rem sps σ2

/-- The `NotAlternatives` member loop (lines 216-224); note it reports a
1-character match even on empty remaining text. -/
def not_alternatives_loop : Nat → List Char → List SubPattern → GState →
    Res (Option Nat × GState)
  | 0, _, _, _ => .fuelOut
  | f + 1, rem, v, σ =>
    match v with
    | [] => .ok (some 1, σ)
    | sp :: sps =>
      (match_subpattern f rem sp σ).bind fun (r, σ2) =>
        match r with
        | some _ => .ok (none, σ2)
        | none => not_alternatives_loop f rem sps σ2

/-- The `AlternateGroups` alternative loop (lines 225-238), recording the
matched text with `or_insert`. -/
def groups_loop : Nat → List Char → Nat → List (List SubPattern) → GState →
    Res (Option Nat × GState)
  | 0, _, _, _, _ => .fuelOut
  | f + 1, rem, id, gs, σ =>
    match gs with
    | [] => .ok (none, σ)
    | g :: rest =>
      (match_all_subpatterns f rem g σ).bind fun (r, σ2) =>
        match r with
        | some off =>
          (sliceTo rem off).bind fun cap =>
            .ok (some off, ⟨orInsert id cap σ2.table, σ2.counter⟩)
        | none => groups_loop f rem id rest σ2

/-- The greedy repetition loop of `match_subpattern` (lines 257-263); returns
the final `still_remaining`.  When the kind matches zero characters of a
non-empty text this loop never terminates (hence the fuel). -/
def star_loop : Nat → List Char → PatternKind → GState →
    Res (List Char × GState)
  | 0, _, _, _ => .fuelOut
  | f + 1, rem, kind, σ =>
    (match_subpattern_kind f rem kind σ).bind fun (r, σ2) =>
      match r with
      | none => .ok (rem, σ2)
      | some off =>
        (sliceFrom rem off).bind fun rem2 =>
          if rem2.isEmpty then .ok (rem2, σ2) else star_loop f rem2 kind σ2

/-- `match_subpattern` (lines 254-284): quantifier wrapping around the
per-kind matcher. -/
def match_subpattern : Nat → List Char → SubPattern → GState →
    Res (Option Nat × GState)
  | 0, _, _, _ => .fuelOut
  | f + 1, rem, sp, σ =>
    match sp.modifier with
    | some .ZeroOrMore | some .OneOrMore =>
      (star_loop f rem sp.kind σ).bind fun (still, σ2) =>
        let off := rem.length - still.length
        if sp.modifier = some Modifier.OneOrMore ∧ off = 0 then .ok (none, σ2)
        else .ok (some off, σ2)
    | some .ZeroOrOne =>
      (match_subpattern_kind f rem sp.kind σ).bind fun (r, σ2) =>
        match r with
        | some off => .ok (some off, σ2)
        | none => .ok (some 0, σ2)
    | none => match_subpattern_kind f rem sp.kind σ

/-- `match_all_subpatterns` (lines 297-309): match a node sequence with no
backtracking and no start search; reports the total consumed length. -/
def match_all_subpatterns : Nat → List Char → List SubPattern → GState →
    Res (Option Nat × GState)
  | 0, _, _, _ => .fuelOut
  | f + 1, rem, sps, σ =>
    match sps with
    | [] => .ok (some 0, σ)
    | sp :: rest =>
      (match_subpattern f rem sp σ).bind fun (r, σ2) =>
        match r with
        | none => .ok (none, σ2)
        | some off =>
          (sliceFrom rem off).bind fun rem2 =>
            (match_all_subpatterns f rem2 rest σ2).bind fun (r2, σ3) =>
              match r2 with
              | none => .ok (none, σ3)
              | some off2 => .ok (some (off + off2), σ3)

/-- `find_match_start` (lines 286-295), written with the probe offset `n`
explicit: try successive non-empty suffixes (`for n in 0..input.len()`),
testing the single node `sp`; on success return the text after the node's
match together with the offset where it matched. -/
def find_match_start : Nat → List Char → Nat → SubPattern → GState →
    Res (Option (List Char × Nat) × GState)
  | 0, _, _, _, _ => .fuelOut
  | f + 1, suffix, n, sp, σ =>
    match suffix with
    | [] => .ok (none, σ)
    | c :: cs =>
      (match_subpattern f (c :: cs) sp σ).bind fun (r, σ2) =>
        match r with
        | some off =>
          (sliceFrom (c :: cs) off).bind fun rem2 => .ok (some (rem2, n), σ2)
        | none => find_match_start f cs (n + 1) sp σ2

/-- The node-walking loop of `match_pattern` (lines 346-393), including the
one-level backtracking; `prev` is `(previous_sp, previous_remaining)`.
On success returns the final remaining text. -/
def match_loop : Nat → List Char → Option (SubPattern × List Char) →
    List SubPattern → GState → Res (Option (List Char) × GState)
  | 0, _, _, _, _ => .fuelOut
  | f + 1, remaining, prev, sps, σ =>
    match sps with
    | [] => .ok (some remaining, σ)
    | sp :: rest =>
      (match_subpattern f remaining sp σ).bind fun (r, σ1) =>
        match r with
        | some off =>
          (sliceFrom remaining off).bind fun rem2 =>
            match_loop f rem2 (some (sp, remaining)) rest σ1
        | none =>
          match prev with
          | none => .ok (none, σ1)
          | some (psp, prem) =>
            if isEligible psp then
              (if psp.modifier = some Modifier.ZeroOrMore then Res.ok prem
               else sliceFrom prem 1).bind fun rem2 =>
                (find_match_start f rem2 0 sp σ1).bind fun (fr, σ2) =>
                  match fr with
                  | none => .ok (none, σ2)
                  | some (_, mstart) =>
                    (sliceFrom rem2 mstart).bind fun rem3 =>
                      (match_subpattern f rem3 sp σ2).bind fun (r2, σ3) =>
                        match r2 with
                        | none => .crash  -- .unwrap() at line 379
                        | some off2 =>
                          (sliceFrom rem3 off2).bind fun rem4 =>
                            match_loop f rem4 (some (sp, rem3)) rest σ3
            else .ok (none, σ1)

/-- `match_pattern` (lines 311-397): compile, anchor, walk. -/
def match_pattern : Nat → List Char → List Char → Bool → GState →
    Res (Option (Nat × Nat) × GState)
  | 0, _, _, _, _ => .fuelOut
  | f + 1, input, pat, force, σ =>
    match parse_pattern pat σ.counter with
    | .fuelOut => .fuelOut
    | .crash => .crash
    | .ok (sps, ctr2) =>
      let σ1 : GState := ⟨σ.table, ctr2⟩
      match sps with
      | [] => .ok (some (0, 0), σ1)
      | sp0 :: rest =>
        if force then
          (match_loop f input none (sp0 :: rest) σ1).bind fun (fr, σ2) =>
            match fr with
            | none => .ok (none, σ2)
            | some finalRem => .ok (some (0, input.length - finalRem.length), σ2)
        else if kindIsInputStart sp0.kind then
          (match_loop f input none rest σ1).bind fun (fr, σ2) =>
            match fr with
            | none => .ok (none, σ2)
            | some finalRem => .ok (some (0, input.length - finalRem.length), σ2)
        else
          (find_match_start f input 0 sp0 σ1).bind fun (fr, σ2) =>
            match fr with
            | none => .ok (none, σ2)
            | some (rem, n) =>
              (match_loop f rem none rest σ2).bind fun (fr2, σ3) =>
                match fr2 with
                | none => .ok (none, σ3)
                | some finalRem => .ok (some (n, input.length - finalRem.length), σ3)
end

/-! ### Fuel adequacy and monotonicity for the compiler -/

def sumLen (gs : List (List Char)) : Nat := (gs.map List.length).sum

@[simp] theorem sumLen_nil : sumLen [] = 0 := rfl

@[simp] theorem sumLen_cons (g : List Char) (gs : List (List Char)) :
    sumLen (g :: gs) = g.length + sumLen gs := by
  simp [sumLen]

@[simp] theorem sumLen_append (a b : List (List Char)) :
    sumLen (a ++ b) = sumLen a + sumLen b := by
  simp [sumLen]

theorem Res.ok_ne_fuelOut {α : Type} (a : α) : (Res.ok a : Res α) ≠ .fuelOut := by
  intro h; cases h

theorem Res.crash_ne_fuelOut {α : Type} : (Res.crash : Res α) ≠ .fuelOut := by
  intro h; cases h

theorem Res.bind_ne_fuelOut {α β : Type} {r : Res α} {g : α → Res β}
    (h1 : r ≠ .fuelOut) (h2 : ∀ a, g a ≠ .fuelOut) : r.bind g ≠ .fuelOut := by
  cases r with
  | ok a => exact h2 a
  | crash => exact Res.crash_ne_fuelOut
  | fuelOut => exact absurd rfl h1

theorem Res.bind_mono {α β : Type} {r r' : Res α} {g g' : α → Res β}
    (hr : r ≠ .fuelOut → r' = r) (hg : ∀ a, g a ≠ .fuelOut → g' a = g a)
    (h : r.bind g ≠ .fuelOut) : r'.bind g' = r.bind g := by
  cases r with
  | ok a =>
    rw [hr (Res.ok_ne_fuelOut a)]
    simp only [Res.bind_ok] at h ⊢
    exact hg a h
  | crash => rw [hr Res.crash_ne_fuelOut]; rfl
  | fuelOut => exact absurd (rfl : (Res.fuelOut : Res α).bind g = .fuelOut) h

theorem scanG_size : ∀ (cs : List Char) (depth : Nat) (cur : List Char)
    (acc : List (List Char)),
    sumLen (scanG cs depth cur acc).1 + (scanG cs depth cur acc).1.length +
      (scanG cs depth cur acc).2.length
      ≤ sumLen acc + acc.length + cur.length + 1 + cs.length := by
  intro cs
  induction cs with
  | nil => intro d cur acc; simp [scanG]; omega
  | cons c cs ih =>
    intro d cur acc
    have i1 := ih (d + 1) (cur ++ [c]) acc
    have i2 := ih (d - 1) (cur ++ [c]) acc
    have i3 := ih 0 [] (acc ++ [cur])
    have i4 := ih d (cur ++ [c]) acc
    simp only [scanG]
    split_ifs <;> simp at i1 i2 i3 i4 ⊢ <;> omega

theorem scanG_tail_le : ∀ (cs : List Char) (depth : Nat) (cur : List Char)
    (acc : List (List Char)), (scanG cs depth cur acc).2.length ≤ cs.length := by
  intro cs
  induction cs with
  | nil => intro d cur acc; simp [scanG]
  | cons c cs ih =>
    intro d cur acc
    have i1 := ih (d + 1) (cur ++ [c]) acc
    have i2 := ih (d - 1) (cur ++ [c]) acc
    have i3 := ih 0 [] (acc ++ [cur])
    have i4 := ih d (cur ++ [c]) acc
    simp only [scanG]
    split_ifs <;> simp at i1 i2 i3 i4 ⊢ <;> omega

theorem scanCAux_contents_le : ∀ (cs cur : List Char),
    (scanCAux cs cur).1.length ≤ cur.length + cs.length := by
  intro cs
  induction cs with
  | nil => intro cur; simp [scanCAux]
  | cons c cs ih =>
    intro cur
    have i1 := ih (cur ++ [c])
    simp only [scanCAux]
    split_ifs <;> simp at i1 ⊢ <;> omega

theorem scanCAux_tail_le : ∀ (cs cur : List Char),
    (scanCAux cs cur).2.length ≤ cs.length := by
  intro cs
  induction cs with
  | nil => intro cur; simp [scanCAux]
  | cons c cs ih =>
    intro cur
    have i1 := ih (cur ++ [c])
    simp only [scanCAux]
    split_ifs <;> simp at i1 ⊢ <;> omega

theorem parse_fuel_adequate : ∀ f : Nat,
    (∀ (p : List Char) (ctr : Nat), 5 * p.length + 5 ≤ f →
      parse_patternF f p ctr ≠ .fuelOut) ∧
    (∀ (gs : List (List Char)) (ctr : Nat),
      5 * sumLen gs + 5 * gs.length + 1 ≤ f → parse_listF f gs ctr ≠ .fuelOut) := by
  intro f
  induction f with
  | zero => refine ⟨?_, ?_⟩ <;> intro _ _ h <;> omega
  | succ f ih =>
    obtain ⟨ihP, ihL⟩ := ih
    refine ⟨?_, ?_⟩
    · intro p ctr h
      cases p with
      | nil => exact Res.ok_ne_fuelOut _
      | cons c cs =>
        simp only [List.length_cons] at h
        unfold parse_patternF
        by_cases hplus : c = '+' ∨ c = '*' ∨ c = '?'
        · rw [if_pos hplus]; exact ihP cs ctr (by omega)
        rw [if_neg hplus]
        by_cases hdot : c = '.'
        · rw [if_pos hdot]
          exact Res.bind_ne_fuelOut (ihP cs ctr (by omega)) (fun a => Res.ok_ne_fuelOut _)
        rw [if_neg hdot]
        by_cases hcaret : c = '^'
        · rw [if_pos hcaret]
          exact Res.bind_ne_fuelOut (ihP cs ctr (by omega)) (fun a => Res.ok_ne_fuelOut _)
        rw [if_neg hcaret]
        by_cases hdollar : c = '$'
        · rw [if_pos hdollar]
          exact Res.bind_ne_fuelOut (ihP cs ctr (by omega)) (fun a => Res.ok_ne_fuelOut _)
        rw [if_neg hdollar]
        by_cases hgroup : c = '('
        · rw [if_pos hgroup]
          have hsg := scanG_size cs 0 [] []
          have hst := scanG_tail_le cs 0 [] []
          simp only [sumLen_nil, List.length_nil] at hsg
          refine Res.bind_ne_fuelOut (ihL _ _ (by omega)) ?_
          rintro ⟨gsubs, c2⟩
          refine Res.bind_ne_fuelOut (ihP _ _ (by omega)) ?_
          rintro ⟨rest, c3⟩
          exact Res.ok_ne_fuelOut _
        rw [if_neg hgroup]
        by_cases hclass : c = '['
        · rw [if_pos hclass]
          cases cs with
          | nil => exact Res.crash_ne_fuelOut
          | cons nc cs2 =>
            simp only [List.length_cons] at h
            dsimp only
            by_cases hneg : nc = '^'
            · rw [if_pos hneg]
              have hc := scanCAux_contents_le cs2 []
              have ht := scanCAux_tail_le cs2 []
              simp only [List.length_nil] at hc
              refine Res.bind_ne_fuelOut (ihP _ _ (by omega)) ?_
              rintro ⟨v, c2⟩
              refine Res.bind_ne_fuelOut (ihP _ _ (by omega)) ?_
              rintro ⟨rest, c3⟩
              exact Res.ok_ne_fuelOut _
            · rw [if_neg hneg]
              have hc := scanCAux_contents_le cs2 [nc]
              have ht := scanCAux_tail_le cs2 [nc]
              simp only [List.length_cons, List.length_nil] at hc
              refine Res.bind_ne_fuelOut (ihP _ _ (by omega)) ?_
              rintro ⟨v, c2⟩
              refine Res.bind_ne_fuelOut (ihP _ _ (by omega)) ?_
              rintro ⟨rest, c3⟩
              exact Res.ok_ne_fuelOut _
        rw [if_neg hclass]
        by_cases hesc : c = '\\'
        · rw [if_pos hesc]
          cases cs with
          | nil => exact Res.crash_ne_fuelOut
          | cons nc cs2 =>
            simp only [List.length_cons] at h
            dsimp only
            by_cases h1 : nc = '\\'
            · rw [if_pos h1]
              exact Res.bind_ne_fuelOut (ihP cs2 _ (by omega)) (fun a => Res.ok_ne_fuelOut _)
            rw [if_neg h1]
            by_cases h2 : nc = 'd'
            · rw [if_pos h2]
              exact Res.bind_ne_fuelOut (ihP cs2 _ (by omega)) (fun a => Res.ok_ne_fuelOut _)
            rw [if_neg h2]
            by_cases h3 : nc = 'w'
            · rw [if_pos h3]
              exact Res.bind_ne_fuelOut (ihP cs2 _ (by omega)) (fun a => Res.ok_ne_fuelOut _)
            rw [if_neg h3]
            by_cases h4 : nc.isDigit = true
            · rw [if_pos h4]
              exact Res.bind_ne_fuelOut (ihP cs2 _ (by omega)) (fun a => Res.ok_ne_fuelOut _)
            · rw [if_neg h4]
              exact Res.crash_ne_fuelOut
        rw [if_neg hesc]
        exact Res.bind_ne_fuelOut (ihP cs ctr (by omega)) (fun a => Res.ok_ne_fuelOut _)
    · intro gs ctr h
      cases gs with
      | nil => exact Res.ok_ne_fuelOut _
      | cons g gs =>
        simp only [sumLen_cons, List.length_cons] at h
        unfold parse_listF
        refine Res.bind_ne_fuelOut (ihP _ _ (by omega)) ?_
        rintro ⟨sub, c2⟩
        refine Res.bind_ne_fuelOut (ihL _ _ (by omega)) ?_
        rintro ⟨subs, c3⟩
        exact Res.ok_ne_fuelOut _

theorem parse_pattern_ne_fuelOut (p : List Char) (ctr : Nat) :
    parse_pattern p ctr ≠ .fuelOut :=
  (parse_fuel_adequate (5 * p.length + 5)).1 p ctr (le_refl _)

theorem parse_list_ne_fuelOut (gs : List (List Char)) (ctr : Nat) :
    parse_list gs ctr ≠ .fuelOut :=
  (parse_fuel_adequate _).2 gs ctr (le_refl _)

theorem Res.bind_ne_fuelOut_left {α β : Type} {r : Res α} {g : α → Res β}
    (h : r.bind g ≠ .fuelOut) : r ≠ .fuelOut := by
  intro he; subst he; exact h rfl

theorem parse_fuel_mono : ∀ f : Nat,
    (∀ (p : List Char) (ctr : Nat) (f' : Nat), f ≤ f' →
      parse_patternF f p ctr ≠ .fuelOut →
      parse_patternF f' p ctr = parse_patternF f p ctr) ∧
    (∀ (gs : List (List Char)) (ctr : Nat) (f' : Nat), f ≤ f' →
      parse_listF f gs ctr ≠ .fuelOut →
      parse_listF f' gs ctr = parse_listF f gs ctr) := by
  intro f
  induction f with
  | zero =>
    refine ⟨?_, ?_⟩ <;> intro _ _ _ _ hne <;> exact absurd rfl hne
  | succ f ih =>
    obtain ⟨ihP, ihL⟩ := ih
    refine ⟨?_, ?_⟩
    · intro p ctr f' hle hne
      obtain ⟨f'', rfl⟩ : ∃ f'', f' = f'' + 1 := ⟨f' - 1, by omega⟩
      have hle2 : f ≤ f'' := by omega
      cases p with
      | nil => rfl
      | cons c cs =>
        unfold parse_patternF at hne ⊢
        by_cases hplus : c = '+' ∨ c = '*' ∨ c = '?'
        · simp only [if_pos hplus] at hne ⊢
          exact ihP cs ctr f'' hle2 hne
        simp only [if_neg hplus] at hne ⊢
        by_cases hdot : c = '.'
        · simp only [if_pos hdot] at hne ⊢
          rw [ihP cs ctr f'' hle2 (Res.bind_ne_fuelOut_left hne)]
        simp only [if_neg hdot] at hne ⊢
        by_cases hcaret : c = '^'
        · simp only [if_pos hcaret] at hne ⊢
          rw [ihP cs ctr f'' hle2 (Res.bind_ne_fuelOut_left hne)]
        simp only [if_neg hcaret] at hne ⊢
        by_cases hdollar : c = '$'
        · simp only [if_pos hdollar] at hne ⊢
          rw [ihP cs ctr f'' hle2 (Res.bind_ne_fuelOut_left hne)]
        simp only [if_neg hdollar] at hne ⊢
        by_cases hgroup : c = '('
        · simp only [if_pos hgroup] at hne ⊢
          refine Res.bind_mono (fun hb => ihL _ _ _ hle2 hb) ?_ hne
          rintro ⟨gsubs, c2⟩ ha
          exact Res.bind_mono (fun hb => ihP _ _ _ hle2 hb) (fun b hb => rfl) ha
        simp only [if_neg hgroup] at hne ⊢
        by_cases hclass : c = '['
        · simp only [if_pos hclass] at hne ⊢
          cases cs with
          | nil => rfl
          | cons nc cs2 =>
            dsimp only at hne ⊢
            by_cases hneg : nc = '^'
            · simp only [if_pos hneg] at hne ⊢
              refine Res.bind_mono (fun hb => ihP _ _ _ hle2 hb) ?_ hne
              rintro ⟨v, c2⟩ ha
              exact Res.bind_mono (fun hb => ihP _ _ _ hle2 hb) (fun b hb => rfl) ha
            · simp only [if_neg hneg] at hne ⊢
              refine Res.bind_mono (fun hb => ihP _ _ _ hle2 hb) ?_ hne
              rintro ⟨v, c2⟩ ha
              exact Res.bind_mono (fun hb => ihP _ _ _ hle2 hb) (fun b hb => rfl) ha
        simp only [if_neg hclass] at hne ⊢
        by_cases hesc : c = '\\'
        · simp only [if_pos hesc] at hne ⊢
          cases cs with
          | nil => rfl
          | cons nc cs2 =>
            dsimp only at hne ⊢
            by_cases h1 : nc = '\\'
            · simp only [if_pos h1] at hne ⊢
              rw [ihP cs2 ctr f'' hle2 (Res.bind_ne_fuelOut_left hne)]
            simp only [if_neg h1] at hne ⊢
            by_cases h2 : nc = 'd'
            · simp only [if_pos h2] at hne ⊢
              rw [ihP cs2 ctr f'' hle2 (Res.bind_ne_fuelOut_left hne)]
            simp only [if_neg h2] at hne ⊢
            by_cases h3 : nc = 'w'
            · simp only [if_pos h3] at hne ⊢
              rw [ihP cs2 ctr f'' hle2 (Res.bind_ne_fuelOut_left hne)]
            simp only [if_neg h3] at hne ⊢
            by_cases h4 : nc.isDigit = true
            · simp only [if_pos h4] at hne ⊢
              rw [ihP cs2 ctr f'' hle2 (Res.bind_ne_fuelOut_left hne)]
            · simp only [if_neg h4] at hne ⊢
        simp only [if_neg hesc] at hne ⊢
        rw [ihP cs ctr f'' hle2 (Res.bind_ne_fuelOut_left hne)]
    · intro gs ctr f' hle hne
      obtain ⟨f'', rfl⟩ : ∃ f'', f' = f'' + 1 := ⟨f' - 1, by omega⟩
      have hle2 : f ≤ f'' := by omega
      cases gs with
      | nil => rfl
      | cons g gs =>
        unfold parse_listF at hne ⊢
        refine Res.bind_mono (fun hb => ihP _ _ _ hle2 hb) ?_ hne
        rintro ⟨sub, c2⟩ ha
        exact Res.bind_mono (fun hb => ihL _ _ _ hle2 hb) (fun b hb => rfl) ha

/-- Any sufficiently large fuel computes `parse_pattern`. -/
theorem parse_patternF_eq_parse_pattern (f : Nat) (p : List Char) (ctr : Nat)
    (h : 5 * p.length + 5 ≤ f) : parse_patternF f p ctr = parse_pattern p ctr :=
  (parse_fuel_mono (5 * p.length + 5)).1 p ctr f h (parse_pattern_ne_fuelOut p ctr)

theorem parse_listF_eq_parse_list (f : Nat) (gs : List (List Char)) (ctr : Nat)
    (h : 5 * sumLen gs + 5 * gs.length + 1 ≤ f) :
    parse_listF f gs ctr = parse_list gs ctr :=
  (parse_fuel_mono _).2 gs ctr f h (parse_list_ne_fuelOut gs ctr)

/-- Definitional unfolding of one compiler step. -/
theorem parse_patternF_cons (f : Nat) (c : Char) (cs : List Char) (ctr : Nat) :
    parse_patternF (f + 1) (c :: cs) ctr =
    (if c = '+' ∨ c = '*' ∨ c = '?' then
      parse_patternF f cs ctr
    else if c = '.' then
      (parse_patternF f cs ctr).bind fun (rest, c2) =>
        .ok (.mk .Any (peekMod cs) :: rest, c2)
    else if c = '^' then
      (parse_patternF f cs ctr).bind fun (rest, c2) =>
        .ok (.mk .InputStart (peekMod cs) :: rest, c2)
    else if c = '$' then
      (parse_patternF f cs ctr).bind fun (rest, c2) =>
        .ok (.mk .InputEnd (peekMod cs) :: rest, c2)
    else if c = '(' then
      let sc := scanG cs 0 [] []
      (parse_listF f sc.1 (ctr + 1)).bind fun (gsubs, c2) =>
        (parse_patternF f sc.2 c2).bind fun (rest, c3) =>
          .ok (.mk (.AlternateGroups ctr gsubs) (peekMod sc.2) :: rest, c3)
    else if c = '[' then
      match cs with
      | [] => .crash
      | nc :: cs2 =>
        if nc = '^' then
          let sc := scanCAux cs2 []
          (parse_patternF f sc.1 ctr).bind fun (v, c2) =>
            (parse_patternF f sc.2 c2).bind fun (rest, c3) =>
              .ok (.mk (.NotAlternatives v) (peekMod sc.2) :: rest, c3)
        else
          let sc := scanCAux cs2 [nc]
          (parse_patternF f sc.1 ctr).bind fun (v, c2) =>
            (parse_patternF f sc.2 c2).bind fun (rest, c3) =>
              .ok (.mk (.Alternatives v) (peekMod sc.2) :: rest, c3)
    else if c = '\\' then
      match cs with
      | [] => .crash
      | nc :: cs2 =>
        if nc = '\\' then
          (parse_patternF f cs2 ctr).bind fun (rest, c2) =>
            .ok (.mk (.Literal '\\') (peekMod cs2) :: rest, c2)
        else if nc = 'd' then
          (parse_patternF f cs2 ctr).bind fun (rest, c2) =>
            .ok (.mk .Digit (peekMod cs2) :: rest, c2)
        else if nc = 'w' then
          (parse_patternF f cs2 ctr).bind fun (rest, c2) =>
            .ok (.mk .AlphaNumeric (peekMod cs2) :: rest, c2)
        else if nc.isDigit then
          (parse_patternF f cs2 ctr).bind fun (rest, c2) =>
            .ok (.mk (.BackRef (digitVal nc)) (peekMod cs2) :: rest, c2)
        else .crash
    else
      (parse_patternF f cs ctr).bind fun (rest, c2) =>
        .ok (.mk (.Literal c) (peekMod cs) :: rest, c2)) := rfl

/-! ### Fuel-free equations for `parse_pattern` -/

theorem parse_pattern_nil (ctr : Nat) : parse_pattern [] ctr = .ok ([], ctr) := rfl

theorem parse_pattern_fuel_succ (c : Char) (cs : List Char) (ctr : Nat) :
    parse_pattern (c :: cs) ctr = parse_patternF (5 * cs.length + 9 + 1) (c :: cs) ctr := by
  unfold parse_pattern
  congr 1
  all_goals (simp only [List.length_cons]; ring)

theorem parse_pattern_skip (c : Char) (cs : List Char) (ctr : Nat)
    (h : c = '+' ∨ c = '*' ∨ c = '?') :
    parse_pattern (c :: cs) ctr = parse_pattern cs ctr := by
  rw [parse_pattern_fuel_succ, parse_patternF_cons, if_pos h]
  exact parse_patternF_eq_parse_pattern _ _ _ (by omega)

theorem parse_pattern_dot (cs : List Char) (ctr : Nat) :
    parse_pattern ('.' :: cs) ctr =
      (parse_pattern cs ctr).bind fun (rest, c2) =>
        .ok (.mk .Any (peekMod cs) :: rest, c2) := by
  rw [parse_pattern_fuel_succ, parse_patternF_cons]
  rw [if_neg (by decide), if_pos rfl]
  rw [parse_patternF_eq_parse_pattern _ _ _ (by omega)]

theorem parse_pattern_caret (cs : List Char) (ctr : Nat) :
    parse_pattern ('^' :: cs) ctr =
      (parse_pattern cs ctr).bind fun (rest, c2) =>
        .ok (.mk .InputStart (peekMod cs) :: rest, c2) := by
  rw [parse_pattern_fuel_succ, parse_patternF_cons]
  rw [if_neg (by decide), if_neg (by decide), if_pos rfl]
  rw [parse_patternF_eq_parse_pattern _ _ _ (by omega)]

theorem parse_pattern_dollar (cs : List Char) (ctr : Nat) :
    parse_pattern ('$' :: cs) ctr =
      (parse_pattern cs ctr).bind fun (rest, c2) =>
        .ok (.mk .InputEnd (peekMod cs) :: rest, c2) := by
  rw [parse_pattern_fuel_succ, parse_patternF_cons]
  rw [if_neg (by decide), if_neg (by decide), if_neg (by decide), if_pos rfl]
  rw [parse_patternF_eq_parse_pattern _ _ _ (by omega)]

theorem parse_pattern_group (cs : List Char) (ctr : Nat) :
    parse_pattern ('(' :: cs) ctr =
      (parse_list (scanG cs 0 [] []).1 (ctr + 1)).bind fun (gsubs, c2) =>
        (parse_pattern (scanG cs 0 [] []).2 c2).bind fun (rest, c3) =>
          .ok (.mk (.AlternateGroups ctr gsubs) (peekMod (scanG cs 0 [] []).2) :: rest, c3) := by
  rw [parse_pattern_fuel_succ, parse_patternF_cons]
  rw [if_neg (by decide), if_neg (by decide), if_neg (by decide), if_neg (by decide),
    if_pos rfl]
  have hsg := scanG_size cs 0 [] []
  have hst := scanG_tail_le cs 0 [] []
  simp only [sumLen_nil, List.length_nil] at hsg
  have h1 : parse_listF (5 * cs.length + 9) (scanG cs 0 [] []).1 (ctr + 1) =
      parse_list (scanG cs 0 [] []).1 (ctr + 1) :=
    parse_listF_eq_parse_list _ _ _ (by omega)
  have h2 : ∀ c2 : Nat, parse_patternF (5 * cs.length + 9) (scanG cs 0 [] []).2 c2 =
      parse_pattern (scanG cs 0 [] []).2 c2 := fun c2 =>
    parse_patternF_eq_parse_pattern _ _ _ (by omega)
  simp only [h1, h2]

theorem parse_pattern_class_nil (ctr : Nat) :
    parse_pattern ['['] ctr = .crash := by
  rw [parse_pattern_fuel_succ, parse_patternF_cons]
  rw [if_neg (by decide), if_neg (by decide), if_neg (by decide), if_neg (by decide),
    if_neg (by decide), if_pos rfl]

theorem parse_pattern_class_neg (cs2 : List Char) (ctr : Nat) :
    parse_pattern ('[' :: '^' :: cs2) ctr =
      (parse_pattern (scanCAux cs2 []).1 ctr).bind fun (v, c2) =>
        (parse_pattern (scanCAux cs2 []).2 c2).bind fun (rest, c3) =>
          .ok (.mk (.NotAlternatives v) (peekMod (scanCAux cs2 []).2) :: rest, c3) := by
  rw [parse_pattern_fuel_succ, parse_patternF_cons]
  rw [if_neg (by decide), if_neg (by decide), if_neg (by decide), if_neg (by decide),
    if_neg (by decide), if_pos rfl]
  dsimp only
  rw [if_pos rfl]
  have hc := scanCAux_contents_le cs2 []
  have ht := scanCAux_tail_le cs2 []
  simp only [List.length_nil, List.length_cons] at hc ht ⊢
  have h1 : parse_patternF (5 * (cs2.length + 1) + 9) (scanCAux cs2 []).1 ctr =
      parse_pattern (scanCAux cs2 []).1 ctr :=
    parse_patternF_eq_parse_pattern _ _ _ (by omega)
  have h2 : ∀ c2 : Nat, parse_patternF (5 * (cs2.length + 1) + 9) (scanCAux cs2 []).2 c2 =
      parse_pattern (scanCAux cs2 []).2 c2 := fun c2 =>
    parse_patternF_eq_parse_pattern _ _ _ (by omega)
  simp only [h1, h2]

theorem parse_pattern_class_pos (nc : Char) (cs2 : List Char) (ctr : Nat)
    (hn : nc ≠ '^') :
    parse_pattern ('[' :: nc :: cs2) ctr =
      (parse_pattern (scanCAux cs2 [nc]).1 ctr).bind fun (v, c2) =>
        (parse_pattern (scanCAux cs2 [nc]).2 c2).bind fun (rest, c3) =>
          .ok (.mk (.Alternatives v) (peekMod (scanCAux cs2 [nc]).2) :: rest, c3) := by
  rw [parse_pattern_fuel_succ, parse_patternF_cons]
  rw [if_neg (by decide), if_neg (by decide), if_neg (by decide), if_neg (by decide),
    if_neg (by decide), if_pos rfl]
  dsimp only
  rw [if_neg hn]
  have hc := scanCAux_contents_le cs2 [nc]
  have ht := scanCAux_tail_le cs2 [nc]
  simp only [List.length_nil, List.length_cons] at hc ht ⊢
  have h1 : parse_patternF (5 * (cs2.length + 1) + 9) (scanCAux cs2 [nc]).1 ctr =
      parse_pattern (scanCAux cs2 [nc]).1 ctr :=
    parse_patternF_eq_parse_pattern _ _ _ (by omega)
  have h2 : ∀ c2 : Nat, parse_patternF (5 * (cs2.length + 1) + 9) (scanCAux cs2 [nc]).2 c2 =
      parse_pattern (scanCAux cs2 [nc]).2 c2 := fun c2 =>
    parse_patternF_eq_parse_pattern _ _ _ (by omega)
  simp only [h1, h2]

theorem parse_pattern_esc_nil (ctr : Nat) :
    parse_pattern ['\\'] ctr = .crash := by
  rw [parse_pattern_fuel_succ, parse_patternF_cons]
  rw [if_neg (by decide), if_neg (by decide), if_neg (by decide), if_neg (by decide),
    if_neg (by decide), if_neg (by decide), if_pos rfl]

theorem parse_pattern_esc_bslash (cs2 : List Char) (ctr : Nat) :
    parse_pattern ('\\' :: '\\' :: cs2) ctr =
      (parse_pattern cs2 ctr).bind fun (rest, c2) =>
        .ok (.mk (.Literal '\\') (peekMod cs2) :: rest, c2) := by
  rw [parse_pattern_fuel_succ, parse_patternF_cons]
  rw [if_neg (by decide), if_neg (by decide), if_neg (by decide), if_neg (by decide),
    if_neg (by decide), if_neg (by decide), if_pos rfl]
  dsimp only
  rw [if_pos rfl]
  rw [parse_patternF_eq_parse_pattern _ _ _ (by simp; omega)]

theorem parse_pattern_esc_d (cs2 : List Char) (ctr : Nat) :
    parse_pattern ('\\' :: 'd' :: cs2) ctr =
      (parse_pattern cs2 ctr).bind fun (rest, c2) =>
        .ok (.mk .Digit (peekMod cs2) :: rest, c2) := by
  rw [parse_pattern_fuel_succ, parse_patternF_cons]
  rw [if_neg (by decide), if_neg (by decide), if_neg (by decide), if_neg (by decide),
    if_neg (by decide), if_neg (by decide), if_pos rfl]
  dsimp only
  rw [if_neg (by decide), if_pos rfl]
  rw [parse_patternF_eq_parse_pattern _ _ _ (by simp; omega)]

theorem parse_pattern_esc_w (cs2 : List Char) (ctr : Nat) :
    parse_pattern ('\\' :: 'w' :: cs2) ctr =
      (parse_pattern cs2 ctr).bind fun (rest, c2) =>
        .ok (.mk .AlphaNumeric (peekMod cs2) :: rest, c2) := by
  rw [parse_pattern_fuel_succ, parse_patternF_cons]
  rw [if_neg (by decide), if_neg (by decide), if_neg (by decide), if_neg (by decide),
    if_neg (by decide), if_neg (by decide), if_pos rfl]
  dsimp only
  rw [if_neg (by decide), if_neg (by decide), if_pos rfl]
  rw [parse_patternF_eq_parse_pattern _ _ _ (by simp; omega)]

theorem parse_pattern_esc_digit (nc : Char) (cs2 : List Char) (ctr : Nat)
    (h1 : nc ≠ '\\') (h2 : nc ≠ 'd') (h3 : nc ≠ 'w') (h4 : nc.isDigit = true) :
    parse_pattern ('\\' :: nc :: cs2) ctr =
      (parse_pattern cs2 ctr).bind fun (rest, c2) =>
        .ok (.mk (.BackRef (digitVal nc)) (peekMod cs2) :: rest, c2) := by
  rw [parse_pattern_fuel_succ, parse_patternF_cons]
  rw [if_neg (by decide), if_neg (by decide), if_neg (by decide), if_neg (by decide),
    if_neg (by decide), if_neg (by decide), if_pos rfl]
  dsimp only
  rw [if_neg h1, if_neg h2, if_neg h3, if_pos h4]
  rw [parse_patternF_eq_parse_pattern _ _ _ (by simp; omega)]

theorem parse_pattern_esc_bad (nc : Char) (cs2 : List Char) (ctr : Nat)
    (h1 : nc ≠ '\\') (h2 : nc ≠ 'd') (h3 : nc ≠ 'w') (h4 : nc.isDigit = false) :
    parse_pattern ('\\' :: nc :: cs2) ctr = .crash := by
  rw [parse_pattern_fuel_succ, parse_patternF_cons]
  rw [if_neg (by decide), if_neg (by decide), if_neg (by decide), if_neg (by decide),
    if_neg (by decide), if_neg (by decide), if_pos rfl]
  dsimp only
  rw [if_neg h1, if_neg h2, if_neg h3, if_neg (by simp [h4])]

theorem parse_pattern_lit (c : Char) (cs : List Char) (ctr : Nat)
    (h1 : c ≠ '+') (h2 : c ≠ '*') (h3 : c ≠ '?') (h4 : c ≠ '.') (h5 : c ≠ '^')
    (h6 : c ≠ '$') (h7 : c ≠ '(') (h8 : c ≠ '[') (h9 : c ≠ '\\') :
    parse_pattern (c :: cs) ctr =
      (parse_pattern cs ctr).bind fun (rest, c2) =>
        .ok (.mk (.Literal c) (peekMod cs) :: rest, c2) := by
  rw [parse_pattern_fuel_succ, parse_patternF_cons]
  rw [if_neg (by tauto), if_neg h4, if_neg h5, if_neg h6, if_neg h7, if_neg h8,
    if_neg h9]
  rw [parse_patternF_eq_parse_pattern _ _ _ (by omega)]

theorem parse_list_nil (ctr : Nat) : parse_list [] ctr = .ok ([], ctr) := rfl

theorem parse_listF_cons (f : Nat) (g : List Char) (gs : List (List Char)) (ctr : Nat) :
    parse_listF (f + 1) (g :: gs) ctr =
      (parse_patternF f g ctr).bind fun (sub, c2) =>
        (parse_listF f gs c2).bind fun (subs, c3) =>
          .ok (sub :: subs, c3) := rfl

theorem parse_list_cons (g : List Char) (gs : List (List Char)) (ctr : Nat) :
    parse_list (g :: gs) ctr =
      (parse_pattern g ctr).bind fun (sub, c2) =>
        (parse_list gs c2).bind fun (subs, c3) =>
          .ok (sub :: subs, c3) := by
  unfold parse_list
  rw [show 5 * (List.map List.length (g :: gs)).sum + 5 * (g :: gs).length + 1 =
      (5 * (List.map List.length (g :: gs)).sum + 5 * gs.length + 5) + 1 by
    simp only [List.length_cons]; ring]
  rw [parse_listF_cons]
  have h1 : parse_patternF (5 * (List.map List.length (g :: gs)).sum + 5 * gs.length + 5)
      g ctr = parse_pattern g ctr :=
    parse_patternF_eq_parse_pattern _ _ _ (by simp; omega)
  have h2 : ∀ c2 : Nat,
      parse_listF (5 * (List.map List.length (g :: gs)).sum + 5 * gs.length + 5) gs c2 =
      parse_list gs c2 := fun c2 =>
    parse_listF_eq_parse_list _ _ _ (by simp [sumLen]; omega)
  simp only [h1, h2]
  rfl

/-! ### Group-id bookkeeping (spec side): pre-order collection of
`AlternateGroups` ids -/

mutual
def kindIds : PatternKind → List Nat
  | .AlternateGroups id gs => id :: gridIds gs
  | .Alternatives v => listIds v
  | .NotAlternatives v => listIds v
  | _ => []

def spIds : SubPattern → List Nat
  | .mk k _ => kindIds k

def listIds : List SubPattern → List Nat
  | [] => []
  | sp :: sps => spIds sp ++ listIds sps

def gridIds : List (List SubPattern) → List Nat
  | [] => []
  | g :: gs => listIds g ++ gridIds gs
end

theorem Res.bind_eq_ok_iff {α β : Type} {r : Res α} {g : α → Res β} {b : β} :
    r.bind g = .ok b ↔ ∃ a, r = .ok a ∧ g a = .ok b := by
  cases r <;> simp [Res.bind]

theorem range'_glue (a b c : Nat) (hab : a ≤ b) (hbc : b ≤ c) :
    List.range' a (b - a) ++ List.range' b (c - b) = List.range' a (c - a) := by
  obtain ⟨k1, rfl⟩ : ∃ k1, b = a + k1 := ⟨b - a, by omega⟩
  obtain ⟨k2, rfl⟩ : ∃ k2, c = a + k1 + k2 := ⟨c - (a + k1), by omega⟩
  have h1 : a + k1 - a = k1 := by omega
  have h2 : a + k1 + k2 - (a + k1) = k2 := by omega
  have h3 : a + k1 + k2 - a = k1 + k2 := by omega
  rw [h1, h2, h3]
  have := List.range'_append a k1 k2 1
  simpa [Nat.add_comm] using this

/-- A step of the id-collection argument for a node whose kind carries no
group ids. -/
theorem ids_simple_step {cs : List Char} {ctr : Nat} {sps : List SubPattern}
    {ctr2 : Nat} {node : SubPattern}
    (hok : ((parse_pattern cs ctr).bind fun (rest, c2) =>
      .ok (node :: rest, c2)) = Res.ok (sps, ctr2))
    (hnode : kindIds node.kind = [])
    (hres : ∀ rest c2, parse_pattern cs ctr = .ok (rest, c2) →
      ctr ≤ c2 ∧ listIds rest = List.range' ctr (c2 - ctr)) :
    ctr ≤ ctr2 ∧ listIds sps = List.range' ctr (ctr2 - ctr) := by
  rw [Res.bind_eq_ok_iff] at hok
  obtain ⟨⟨rest, c2⟩, hrest, hcons⟩ := hok
  simp only [Res.ok.injEq, Prod.mk.injEq] at hcons
  obtain ⟨hsps, hc2⟩ := hcons
  subst hsps; subst hc2
  obtain ⟨h1, h2⟩ := hres rest c2 hrest
  refine ⟨h1, ?_⟩
  show spIds node ++ listIds rest = _
  cases node with
  | mk k m =>
    simp only [spIds]
    simp only [SubPattern.kind] at hnode
    rw [hnode, h2]
    simp

theorem parse_ids : ∀ n : Nat,
    (∀ (p : List Char) (ctr : Nat) (sps : List SubPattern) (ctr2 : Nat),
      5 * p.length + 5 ≤ n → parse_pattern p ctr = .ok (sps, ctr2) →
      ctr ≤ ctr2 ∧ listIds sps = List.range' ctr (ctr2 - ctr)) ∧
    (∀ (gs : List (List Char)) (ctr : Nat) (subs : List (List SubPattern)) (ctr2 : Nat),
      5 * sumLen gs + 5 * gs.length + 1 ≤ n → parse_list gs ctr = .ok (subs, ctr2) →
      ctr ≤ ctr2 ∧ gridIds subs = List.range' ctr (ctr2 - ctr)) := by
  intro n
  induction n with
  | zero => refine ⟨?_, ?_⟩ <;> intro _ _ _ _ h <;> omega
  | succ n ih =>
    obtain ⟨ihP, ihL⟩ := ih
    refine ⟨?_, ?_⟩
    · rintro p ctr sps ctr2 hn hok
      cases p with
      | nil =>
        rw [parse_pattern_nil] at hok
        simp only [Res.ok.injEq, Prod.mk.injEq] at hok
        obtain ⟨h1, h2⟩ := hok
        subst h1; subst h2
        simp [listIds]
      | cons c cs =>
        simp only [List.length_cons] at hn
        by_cases hplus : c = '+' ∨ c = '*' ∨ c = '?'
        · rw [parse_pattern_skip _ _ _ hplus] at hok
          exact ihP cs ctr sps ctr2 (by omega) hok
        by_cases hdot : c = '.'
        · subst hdot
          rw [parse_pattern_dot] at hok
          exact ids_simple_step hok rfl (fun rest c2 h => ihP cs ctr rest c2 (by omega) h)
        by_cases hcaret : c = '^'
        · subst hcaret
          rw [parse_pattern_caret] at hok
          exact ids_simple_step hok rfl (fun rest c2 h => ihP cs ctr rest c2 (by omega) h)
        by_cases hdollar : c = '$'
        · subst hdollar
          rw [parse_pattern_dollar] at hok
          exact ids_simple_step hok rfl (fun rest c2 h => ihP cs ctr rest c2 (by omega) h)
        by_cases hgroup : c = '('
        · subst hgroup
          rw [parse_pattern_group] at hok
          rw [Res.bind_eq_ok_iff] at hok
          obtain ⟨⟨gsubs, c2⟩, hgs, hok⟩ := hok
          rw [Res.bind_eq_ok_iff] at hok
          obtain ⟨⟨rest, c3⟩, hrest, hcons⟩ := hok
          simp only [Res.ok.injEq, Prod.mk.injEq] at hcons
          obtain ⟨hsps, hc3⟩ := hcons
          subst hsps
          rw [← hc3]
          have hsg := scanG_size cs 0 [] []
          have hst := scanG_tail_le cs 0 [] []
          simp only [sumLen_nil, List.length_nil] at hsg
          obtain ⟨hg1, hg2⟩ := ihL _ _ _ _ (by omega) hgs
          obtain ⟨ht1, ht2⟩ := ihP _ _ _ _ (by omega) hrest
          refine ⟨by omega, ?_⟩
          show (ctr :: gridIds gsubs) ++ listIds rest = _
          rw [hg2, ht2]
          rw [show (ctr :: List.range' (ctr + 1) (c2 - (ctr + 1))) ++
                List.range' c2 (c3 - c2) =
              ctr :: (List.range' (ctr + 1) (c2 - (ctr + 1)) ++
                List.range' c2 (c3 - c2)) from rfl]
          rw [range'_glue (ctr + 1) c2 c3 (by omega) (by omega)]
          rw [show c3 - ctr = (c3 - (ctr + 1)) + 1 by omega, List.range'_succ]
        by_cases hclass : c = '['
        · subst hclass
          cases cs with
          | nil =>
            rw [parse_pattern_class_nil] at hok
            cases hok
          | cons nc cs2 =>
            simp only [List.length_cons] at hn
            have hc := scanCAux_contents_le cs2 []
            have ht := scanCAux_tail_le cs2 []
            have hcn := scanCAux_contents_le cs2 [nc]
            have htn := scanCAux_tail_le cs2 [nc]
            simp only [List.length_nil, List.length_cons] at hc hcn
            by_cases hneg : nc = '^'
            · subst hneg
              rw [parse_pattern_class_neg] at hok
              rw [Res.bind_eq_ok_iff] at hok
              obtain ⟨⟨v, d2⟩, hv, hok⟩ := hok
              rw [Res.bind_eq_ok_iff] at hok
              obtain ⟨⟨rest, d3⟩, hrest, hcons⟩ := hok
              simp only [Res.ok.injEq, Prod.mk.injEq] at hcons
              obtain ⟨hsps, hc3⟩ := hcons
              subst hsps
              rw [← hc3]
              obtain ⟨h1, h2⟩ := ihP _ _ _ _ (by omega) hv
              obtain ⟨h3, h4⟩ := ihP _ _ _ _ (by omega) hrest
              refine ⟨by omega, ?_⟩
              show listIds v ++ listIds rest = _
              rw [h2, h4]
              exact range'_glue ctr d2 d3 h1 h3
            · rw [parse_pattern_class_pos _ _ _ hneg] at hok
              rw [Res.bind_eq_ok_iff] at hok
              obtain ⟨⟨v, d2⟩, hv, hok⟩ := hok
              rw [Res.bind_eq_ok_iff] at hok
              obtain ⟨⟨rest, d3⟩, hrest, hcons⟩ := hok
              simp only [Res.ok.injEq, Prod.mk.injEq] at hcons
              obtain ⟨hsps, hc3⟩ := hcons
              subst hsps
              rw [← hc3]
              obtain ⟨h1, h2⟩ := ihP _ _ _ _ (by omega) hv
              obtain ⟨h3, h4⟩ := ihP _ _ _ _ (by omega) hrest
              refine ⟨by omega, ?_⟩
              show listIds v ++ listIds rest = _
              rw [h2, h4]
              exact range'_glue ctr d2 d3 h1 h3
        by_cases hesc : c = '\\'
        · subst hesc
          cases cs with
          | nil =>
            rw [parse_pattern_esc_nil] at hok
            cases hok
          | cons nc cs2 =>
            simp only [List.length_cons] at hn
            by_cases h1 : nc = '\\'
            · subst h1
              rw [parse_pattern_esc_bslash] at hok
              exact ids_simple_step hok rfl
                (fun rest c2 h => ihP cs2 ctr rest c2 (by omega) h)
            by_cases h2 : nc = 'd'
            · subst h2
              rw [parse_pattern_esc_d] at hok
              exact ids_simple_step hok rfl
                (fun rest c2 h => ihP cs2 ctr rest c2 (by omega) h)
            by_cases h3 : nc = 'w'
            · subst h3
              rw [parse_pattern_esc_w] at hok
              exact ids_simple_step hok rfl
                (fun rest c2 h => ihP cs2 ctr rest c2 (by omega) h)
            by_cases h4 : nc.isDigit = true
            · rw [parse_pattern_esc_digit _ _ _ h1 h2 h3 h4] at hok
              exact ids_simple_step hok rfl
                (fun rest c2 h => ihP cs2 ctr rest c2 (by omega) h)
            · rw [parse_pattern_esc_bad _ _ _ h1 h2 h3 (by simpa using h4)] at hok
              cases hok
        · have hng : ¬(c = '+') := fun h => hplus (Or.inl h)
          have hng2 : ¬(c = '*') := fun h => hplus (Or.inr (Or.inl h))
          have hng3 : ¬(c = '?') := fun h => hplus (Or.inr (Or.inr h))
          rw [parse_pattern_lit _ _ _ hng hng2 hng3 hdot hcaret hdollar hgroup
            hclass hesc] at hok
          exact ids_simple_step hok rfl (fun rest c2 h => ihP cs ctr rest c2 (by omega) h)
    · rintro gs ctr subs ctr2 hn hok
      cases gs with
      | nil =>
        rw [parse_list_nil] at hok
        simp only [Res.ok.injEq, Prod.mk.injEq] at hok
        obtain ⟨h1, h2⟩ := hok
        subst h1; subst h2
        simp [gridIds]
      | cons g gs =>
        simp only [sumLen_cons, List.length_cons] at hn
        rw [parse_list_cons] at hok
        rw [Res.bind_eq_ok_iff] at hok
        obtain ⟨⟨sub, c2⟩, hsub, hok⟩ := hok
        rw [Res.bind_eq_ok_iff] at hok
        obtain ⟨⟨subs2, c3⟩, hsubs, hcons⟩ := hok
        simp only [Res.ok.injEq, Prod.mk.injEq] at hcons
        obtain ⟨hs, hc3⟩ := hcons
        subst hs
        rw [← hc3]
        obtain ⟨h1, h2⟩ := ihP _ _ _ _ (by omega) hsub
        obtain ⟨h3, h4⟩ := ihL _ _ _ _ (by omega) hsubs
        refine ⟨by omega, ?_⟩
        show listIds sub ++ gridIds subs2 = _
        rw [h2, h4]
        exact range'_glue ctr c2 c3 h1 h3

/-! ### One-step unfolding equations for the matcher -/

theorem msk_inputStart (f : Nat) (rem : List Char) (σ : GState) :
    match_subpattern_kind (f + 1) rem .InputStart σ = .crash := rfl

theorem msk_inputEnd (f : Nat) (rem : List Char) (σ : GState) :
    match_subpattern_kind (f + 1) rem .InputEnd σ =
      .ok (if rem.isEmpty then some 0 else none, σ) := rfl

theorem msk_any (f : Nat) (rem : List Char) (σ : GState) :
    match_subpattern_kind (f + 1) rem .Any σ =
      .ok (if rem.isEmpty then none else some 1, σ) := rfl

theorem msk_literal (f : Nat) (rem : List Char) (l : Char) (σ : GState) :
    match_subpattern_kind (f + 1) rem (.Literal l) σ =
      .ok (match rem with
           | [] => none
           | c :: _ => if c = l then some 1 else none, σ) := rfl

theorem msk_digit (f : Nat) (rem : List Char) (σ : GState) :
    match_subpattern_kind (f + 1) rem .Digit σ =
      .ok (match rem with
           | [] => none
           | c :: _ => if c.isDigit then some 1 else none, σ) := rfl

theorem msk_alphanum (f : Nat) (rem : List Char) (σ : GState) :
    match_subpattern_kind (f + 1) rem .AlphaNumeric σ =
      .ok (match rem with
           | [] => none
           | c :: _ => if c.isAlphanum ∨ c = '_' then some 1 else none, σ) := rfl

theorem msk_alts (f : Nat) (rem : List Char) (v : List SubPattern) (σ : GState) :
    match_subpattern_kind (f + 1) rem (.Alternatives v) σ =
      alternatives_loop f rem v σ := rfl

theorem msk_notAlts (f : Nat) (rem : List Char) (v : List SubPattern) (σ : GState) :
    match_subpattern_kind (f + 1) rem (.NotAlternatives v) σ =
      not_alternatives_loop f rem v σ := rfl

theorem msk_groups (f : Nat) (rem : List Char) (id : Nat)
    (gs : List (List SubPattern)) (σ : GState) :
    match_subpattern_kind (f + 1) rem (.AlternateGroups id gs) σ =
      groups_loop f rem id gs σ := rfl

theorem msk_backref (f : Nat) (rem : List Char) (i : Nat) (σ : GState) :
    match_subpattern_kind (f + 1) rem (.BackRef i) σ =
      (match lookupTable σ.table (backrefKey i) with
       | none => .ok (none, σ)
       | some g =>
         (match_pattern f rem g true σ).bind fun (r, σ2) =>
           match r with
           | some (s, e) => if s = 0 then .ok (some e, σ2) else .ok (none, σ2)
           | none => .ok (none, σ2)) := rfl

theorem alternatives_loop_nil (f : Nat) (rem : List Char) (σ : GState) :
    alternatives_loop (f + 1) rem [] σ = .ok (none, σ) := rfl

theorem alternatives_loop_cons (f : Nat) (rem : List Char) (sp : SubPattern)
    (sps : List SubPattern) (σ : GState) :
    alternatives_loop (f + 1) rem (sp :: sps) σ =
      (match_subpattern f rem sp σ).bind fun (r, σ2) =>
        match r with
        | some off => .ok (some off, σ2)
        | none => alternatives_loop f rem sps σ2 := rfl

theorem not_alternatives_loop_nil (f : Nat) (rem : List Char) (σ : GState) :
    not_alternatives_loop (f + 1) rem [] σ = .ok (some 1, σ) := rfl

theorem not_alternatives_loop_cons (f : Nat) (rem : List Char) (sp : SubPattern)
    (sps : List SubPattern) (σ : GState) :
    not_alternatives_loop (f + 1) rem (sp :: sps) σ =
      (match_subpattern f rem sp σ).bind fun (r, σ2) =>
        match r with
        | some _ => .ok (none, σ2)
        | none => not_alternatives_loop f rem sps σ2 := rfl

theorem groups_loop_nil (f : Nat) (rem : List Char) (id : Nat) (σ : GState) :
    groups_loop (f + 1) rem id [] σ = .ok (none, σ) := rfl

theorem groups_loop_cons (f : Nat) (rem : List Char) (id : Nat)
    (g : List SubPattern) (rest : List (List SubPattern)) (σ : GState) :
    groups_loop (f + 1) rem id (g :: rest) σ =
      (match_all_subpatterns f rem g σ).bind fun (r, σ2) =>
        match r with
        | some off =>
          (sliceTo rem off).bind fun cap =>
            .ok (some off, ⟨orInsert id cap σ2.table, σ2.counter⟩)
        | none => groups_loop f rem id rest σ2 := rfl

theorem star_loop_succ (f : Nat) (rem : List Char) (kind : PatternKind) (σ : GState) :
    star_loop (f + 1) rem kind σ =
      (match_subpattern_kind f rem kind σ).bind fun (r, σ2) =>
        match r with
        | none => .ok (rem, σ2)
        | some off =>
          (sliceFrom rem off).bind fun rem2 =>
            if rem2.isEmpty then .ok (rem2, σ2) else star_loop f rem2 kind σ2 := rfl

theorem match_subpattern_star (f : Nat) (rem : List Char) (k : PatternKind)
    (m : Modifier) (σ : GState) (hm : m = .ZeroOrMore ∨ m = .OneOrMore) :
    match_subpattern (f + 1) rem (.mk k (some m)) σ =
      (star_loop f rem k σ).bind fun (still, σ2) =>
        if (some m : Option Modifier) = some Modifier.OneOrMore ∧
            rem.length - still.length = 0 then .ok (none, σ2)
        else .ok (some (rem.length - still.length), σ2) := by
  rcases hm with h | h <;> subst h <;> rfl

theorem match_subpattern_zeroOrOne (f : Nat) (rem : List Char) (k : PatternKind)
    (σ : GState) :
    match_subpattern (f + 1) rem (.mk k (some .ZeroOrOne)) σ =
      (match_subpattern_kind f rem k σ).bind fun (r, σ2) =>
        match r with
        | some off => .ok (some off, σ2)
        | none => .ok (some 0, σ2) := rfl

theorem match_subpattern_plain (f : Nat) (rem : List Char) (k : PatternKind)
    (σ : GState) :
    match_subpattern (f + 1) rem (.mk k none) σ =
      match_subpattern_kind f rem k σ := rfl

theorem match_all_nil (f : Nat) (rem : List Char) (σ : GState) :
    match_all_subpatterns (f + 1) rem [] σ = .ok (some 0, σ) := rfl

theorem match_all_cons (f : Nat) (rem : List Char) (sp : SubPattern)
    (rest : List SubPattern) (σ : GState) :
    match_all_subpatterns (f + 1) rem (sp :: rest) σ =
      (match_subpattern f rem sp σ).bind fun (r, σ2) =>
        match r with
        | none => .ok (none, σ2)
        | some off =>
          (sliceFrom rem off).bind fun rem2 =>
            (match_all_subpatterns f rem2 rest σ2).bind fun (r2, σ3) =>
              match r2 with
              | none => .ok (none, σ3)
              | some off2 => .ok (some (off + off2), σ3) := rfl

theorem find_match_start_nil (f : Nat) (n : Nat) (sp : SubPattern) (σ : GState) :
    find_match_start (f + 1) [] n sp σ = .ok (none, σ) := rfl

theorem find_match_start_cons (f : Nat) (c : Char) (cs : List Char) (n : Nat)
    (sp : SubPattern) (σ : GState) :
    find_match_start (f + 1) (c :: cs) n sp σ =
      (match_subpattern f (c :: cs) sp σ).bind fun (r, σ2) =>
        match r with
        | some off =>
          (sliceFrom (c :: cs) off).bind fun rem2 => .ok (some (rem2, n), σ2)
        | none => find_match_start f cs (n + 1) sp σ2 := rfl

theorem match_loop_nil (f : Nat) (remaining : List Char)
    (prev : Option (SubPattern × List Char)) (σ : GState) :
    match_loop (f + 1) remaining prev [] σ = .ok (some remaining, σ) := rfl

theorem match_loop_cons (f : Nat) (remaining : List Char)
    (prev : Option (SubPattern × List Char)) (sp : SubPattern)
    (rest : List SubPattern) (σ : GState) :
    match_loop (f + 1) remaining prev (sp :: rest) σ =
      (match_subpattern f remaining sp σ).bind fun (r, σ1) =>
        match r with
        | some off =>
          (sliceFrom remaining off).bind fun rem2 =>
            match_loop f rem2 (some (sp, remaining)) rest σ1
        | none =>
          match prev with
          | none => .ok (none, σ1)
          | some (psp, prem) =>
            if isEligible psp then
              (if psp.modifier = some Modifier.ZeroOrMore then Res.ok prem
               else sliceFrom prem 1).bind fun rem2 =>
                (find_match_start f rem2 0 sp σ1).bind fun (fr, σ2) =>
                  match fr with
                  | none => .ok (none, σ2)
                  | some (_, mstart) =>
                    (sliceFrom rem2 mstart).bind fun rem3 =>
                      (match_subpattern f rem3 sp σ2).bind fun (r2, σ3) =>
                        match r2 with
                        | none => .crash
                        | some off2 =>
                          (sliceFrom rem3 off2).bind fun rem4 =>
                            match_loop f rem4 (some (sp, rem3)) rest σ3
            else .ok (none, σ1) := rfl

theorem match_pattern_succ (f : Nat) (input pat : List Char) (force : Bool)
    (σ : GState) :
    match_pattern (f + 1) input pat force σ =
      (match parse_pattern pat σ.counter with
       | .fuelOut => .fuelOut
       | .crash => .crash
       | .ok (sps, ctr2) =>
         let σ1 : GState := ⟨σ.table, ctr2⟩
         match sps with
         | [] => .ok (some (0, 0), σ1)
         | sp0 :: rest =>
           if force then
             (match_loop f input none (sp0 :: rest) σ1).bind fun (fr, σ2) =>
               match fr with
               | none => .ok (none, σ2)
               | some finalRem => .ok (some (0, input.length - finalRem.length), σ2)
           else if kindIsInputStart sp0.kind then
             (match_loop f input none rest σ1).bind fun (fr, σ2) =>
               match fr with
               | none => .ok (none, σ2)
               | some finalRem => .ok (some (0, input.length - finalRem.length), σ2)
           else
             (find_match_start f input 0 sp0 σ1).bind fun (fr, σ2) =>
               match fr with
               | none => .ok (none, σ2)
               | some (rem, n) =>
                 (match_loop f rem none rest σ2).bind fun (fr2, σ3) =>
                   match fr2 with
                   | none => .ok (none, σ3)
                   | some finalRem => .ok (some (n, input.length - finalRem.length), σ3)) := rfl

/-! ### Claim C3 -/

/-- C3: compilation assigns group ids to `AlternateGroups` nodes in strictly
increasing order of first appearance (left-to-right, pre-order over nesting)
starting at 0: the pre-order id list of a compilation started at counter 0 is
exactly `[0, 1, ..., k-1]`.  Moreover a backreference escape `\d` compiles to
`BackRef(d)`, and matching `BackRef(i)` consults the table entry for key
`i - 1` (so `\1` refers to the group with id 0, the first group compiled):
when that entry is absent the node fails, and when it holds `g` the matcher
runs the anchored match of `g`. -/
theorem C3_group_ids_preorder :
    (∀ (p : List Char) (sps : List SubPattern) (ctr2 : Nat),
      parse_pattern p 0 = .ok (sps, ctr2) →
      listIds sps = List.range' 0 ctr2) ∧
    (∀ (d : Char) (cs2 : List Char) (ctr : Nat), d.isDigit = true →
      parse_pattern ('\\' :: d :: cs2) ctr =
        (parse_pattern cs2 ctr).bind fun (rest, c2) =>
          .ok (.mk (.BackRef (digitVal d)) (peekMod cs2) :: rest, c2)) ∧
    (∀ i : Nat, 1 ≤ i → i ≤ 9 → backrefKey i = i - 1) ∧
    (∀ (f : Nat) (rem : List Char) (i : Nat) (σ : GState),
      lookupTable σ.table (backrefKey i) = none →
      match_subpattern_kind (f + 1) rem (.BackRef i) σ = .ok (none, σ)) ∧
    (∀ (f : Nat) (rem : List Char) (i : Nat) (σ : GState) (g : List Char),
      lookupTable σ.table (backrefKey i) = some g →
      match_subpattern_kind (f + 1) rem (.BackRef i) σ =
        (match_pattern f rem g true σ).bind fun (r, σ2) =>
          match r with
          | some (s, e) => if s = 0 then .ok (some e, σ2) else .ok (none, σ2)
          | none => .ok (none, σ2)) := by
  refine ⟨?_, ?_, ?_, ?_, ?_⟩
  · intro p sps ctr2 hok
    obtain ⟨h1, h2⟩ := (parse_ids (5 * p.length + 5)).1 p 0 sps ctr2 (le_refl _) hok
    simpa using h2
  · intro d cs2 ctr hd
    have h1 : d ≠ '\\' := by intro h; rw [h] at hd; exact absurd hd (by decide)
    have h2 : d ≠ 'd' := by intro h; rw [h] at hd; exact absurd hd (by decide)
    have h3 : d ≠ 'w' := by intro h; rw [h] at hd; exact absurd hd (by decide)
    exact parse_pattern_esc_digit d cs2 ctr h1 h2 h3 hd
  · intro i hi1 hi9
    unfold backrefKey
    omega
  · intro f rem i σ hnone
    rw [msk_backref, hnone]
  · intro f rem i σ g hsome
    rw [msk_backref, hsome]

/-- Witness for C3 at concrete inputs: compiling `((a)|b)(c)` from a fresh
counter assigns ids 0, 1, 2 in pre-order; `backrefKey 1 = 0`; a `BackRef 1`
with no recorded capture fails. -/
theorem C3_witness :
    listIds [.mk (.AlternateGroups 0
        [[.mk (.AlternateGroups 1 [[.mk (.Literal 'a') none]]) none],
         [.mk (.Literal 'b') none]]) none,
      .mk (.AlternateGroups 2 [[.mk (.Literal 'c') none]]) none] =
      List.range' 0 3 ∧
    backrefKey 1 = 0 ∧
    match_subpattern_kind 5 ['x'] (.BackRef 1) ⟨[], 0⟩ = .ok (none, ⟨[], 0⟩) := by
  refine ⟨?_, ?_, ?_⟩
  · exact C3_group_ids_preorder.1 "((a)|b)(c)".toList _ 3 rfl
  · exact C3_group_ids_preorder.2.2.1 1 (by decide) (by decide)
  · exact C3_group_ids_preorder.2.2.2.1 4 ['x'] 1 ⟨[], 0⟩ rfl

/-! ### Claim C5 -/

/-- C5: matching a `BackRef(i)` node whose referenced group id has no
recorded capture is an ordinary match-time failure: the node reports no
match (`ok (none, σ)`, with the state unchanged), never a panic/abort. -/
theorem C5_backref_unset_is_failure (f : Nat) (rem : List Char) (i : Nat)
    (σ : GState) (h : lookupTable σ.table (backrefKey i) = none) :
    match_subpattern_kind (f + 1) rem (.BackRef i) σ = .ok (none, σ) := by
  rw [msk_backref, h]

/-- Witness for C5: `\1` against text `"ab"` with an empty capture table. -/
theorem C5_witness :
    lookupTable (GState.mk [] 0).table (backrefKey 1) = none ∧
    match_subpattern_kind 8 "ab".toList (.BackRef 1) ⟨[], 0⟩ = .ok (none, ⟨[], 0⟩) :=
  ⟨rfl, C5_backref_unset_is_failure 7 "ab".toList 1 ⟨[], 0⟩ rfl⟩

/-! ### Claim C10 -/

/-- C10: for a pattern that compiles to a non-empty node sequence whose
first node is not `InputStart`, the top-level match with
`force_from_start = false` against the empty input returns no match: the
start-probe loop of `find_match_start` iterates over offsets
`0..input.len()` and so never runs on empty input. -/
theorem C10_empty_input_no_match (f : Nat) (p : List Char) (σ : GState)
    (sp0 : SubPattern) (rest : List SubPattern) (ctr2 : Nat)
    (hparse : parse_pattern p σ.counter = .ok (sp0 :: rest, ctr2))
    (hnotIS : kindIsInputStart sp0.kind = false) :
    match_pattern (f + 2) [] p false σ = .ok (none, ⟨σ.table, ctr2⟩) := by
  rw [match_pattern_succ, hparse]
  simp only [Bool.false_eq_true, if_false, hnotIS, find_match_start_nil]
  rfl

/-- Witness for C10: the patterns `a*` and `$` (which as regexes match the
empty string) fail against empty input. -/
theorem C10_witness :
    parse_pattern "a*".toList 0 =
      .ok ([.mk (.Literal 'a') (some .ZeroOrMore)], 0) ∧
    match_pattern 9 [] "a*".toList false ⟨[], 0⟩ = .ok (none, ⟨[], 0⟩) ∧
    match_pattern 9 [] "$".toList false ⟨[], 0⟩ = .ok (none, ⟨[], 0⟩) :=
  ⟨rfl,
   C10_empty_input_no_match 7 "a*".toList ⟨[], 0⟩ _ _ 0 rfl rfl,
   C10_empty_input_no_match 7 "$".toList ⟨[], 0⟩ (.mk .InputEnd none) [] 0 rfl rfl⟩

/-! ### Claim C7 -/

/-- C7 counterexample: a `ZeroOrMore` node does NOT always report success —
the greedy loop panics (out-of-range slice, line 259) when the per-kind
matcher claims to consume more than the remaining text, as `NotAlternatives`
does on empty text (it reports a 1-character match even there). -/
theorem C7_counterexample :
    match_subpattern 10 []
      (.mk (.NotAlternatives [.mk (.Literal 'b') none]) (some .ZeroOrMore))
      ⟨[], 0⟩ = .crash := rfl

/-- C7 amended: whenever `match_subpattern` returns normally, a `OneOrMore`
node matches only with at least one consumed unit and fails exactly when the
greedy loop consumed zero; `ZeroOrMore`/`ZeroOrOne` nodes always report
success.  (As stated the claim is false: the greedy loop can panic instead
of returning, see `C7_counterexample`.) -/
theorem C7_quantifier_success (f : Nat) (rem : List Char) (k : PatternKind)
    (m : Modifier) (σ : GState) (r : Option Nat) (σ' : GState)
    (h : match_subpattern (f + 1) rem (.mk k (some m)) σ = .ok (r, σ')) :
    (m = .OneOrMore → (∀ n, r = some n → 1 ≤ n) ∧
      (r = none → ∃ still, star_loop f rem k σ = .ok (still, σ') ∧
        rem.length - still.length = 0)) ∧
    ((m = .ZeroOrMore ∨ m = .ZeroOrOne) → ∃ n, r = some n) := by
  cases m with
  | ZeroOrMore =>
    rw [match_subpattern_star f rem k .ZeroOrMore σ (Or.inl rfl)] at h
    rw [Res.bind_eq_ok_iff] at h
    obtain ⟨⟨still, σ2⟩, hstar, hres⟩ := h
    dsimp only at hres
    rw [if_neg (by simp)] at hres
    simp only [Res.ok.injEq, Prod.mk.injEq] at hres
    constructor
    · intro hm; exact absurd hm (by decide)
    · intro _; exact ⟨rem.length - still.length, hres.1.symm⟩
  | OneOrMore =>
    rw [match_subpattern_star f rem k .OneOrMore σ (Or.inr rfl)] at h
    rw [Res.bind_eq_ok_iff] at h
    obtain ⟨⟨still, σ2⟩, hstar, hres⟩ := h
    dsimp only at hres
    constructor
    swap
    · intro hm
      exact absurd hm (by decide)
    intro _
    by_cases hz : rem.length - still.length = 0
    · rw [if_pos (by simp [hz])] at hres
      simp only [Res.ok.injEq, Prod.mk.injEq] at hres
      obtain ⟨hr, hσ⟩ := hres
      constructor
      · intro n hn; rw [← hr] at hn; cases hn
      · intro _
        refine ⟨still, ?_, hz⟩
        rw [hstar, hσ]
    · rw [if_neg (by simp [hz])] at hres
      simp only [Res.ok.injEq, Prod.mk.injEq] at hres
      obtain ⟨hr, hσ⟩ := hres
      constructor
      · intro n hn
        rw [← hr] at hn
        simp only [Option.some.injEq] at hn
        omega
      · intro hn
        rw [← hr] at hn
        cases hn
  | ZeroOrOne =>
    rw [match_subpattern_zeroOrOne] at h
    rw [Res.bind_eq_ok_iff] at h
    obtain ⟨⟨rk, σ2⟩, hkind, hres⟩ := h
    dsimp only at hres
    constructor
    · intro hm; exact absurd hm (by decide)
    intro _
    cases rk with
    | some off =>
      simp only [Res.ok.injEq, Prod.mk.injEq] at hres
      exact ⟨off, hres.1.symm⟩
    | none =>
      simp only [Res.ok.injEq, Prod.mk.injEq] at hres
      exact ⟨0, hres.1.symm⟩

/-- Witness for C7 amended: `a*` on `"aab"` consumes 2; `a+` on `"b"` fails
with zero consumption; `a?` on `"b"` succeeds with 0. -/
theorem C7_witness :
    (∀ n : Nat, (some 2 : Option Nat) = some n → 1 ≤ n) ∧
    (∃ n : Nat, (some 2 : Option Nat) = some n) ∧
    (∃ n : Nat, (some 0 : Option Nat) = some n) := by
  refine ⟨?_, ?_, ?_⟩
  · intro n hn; cases hn; omega
  · exact (C7_quantifier_success 4 "aab".toList (.Literal 'a') .ZeroOrMore
      ⟨[], 0⟩ (some 2) ⟨[], 0⟩ rfl).2 (Or.inl rfl)
  · exact (C7_quantifier_success 4 "b".toList (.Literal 'a') .ZeroOrOne
      ⟨[], 0⟩ (some 0) ⟨[], 0⟩ rfl).2 (Or.inr rfl)

/-! ### Claim C2 -/

/-- The backtracking step as described by the specification: when a node
fails against the current remaining text, an eligible immediately-preceding
node (quantified `ZeroOrMore`/`OneOrMore`, or an `AlternateGroups` node)
triggers a retry: roll the cursor back to the previous node's pre-match
position (`ZeroOrMore`: the full pre-match position; otherwise advanced by
one consumed unit — panicking when the pre-match text is empty), re-run
`find_match_start` for the failing node from there, and resume matching
(re-matching the failing node at the found start; a failing re-match
panics).  With no eligible preceding node, or no start found, the whole
attempt fails.  Only this one level of lookback exists. -/
def backtrack_resume (f : Nat) (prev : Option (SubPattern × List Char))
    (sp : SubPattern) (rest : List SubPattern) (σ1 : GState) :
    Res (Option (List Char) × GState) :=
  match prev with
  | none => .ok (none, σ1)
  | some (psp, prem) =>
    if isEligible psp then
      (if psp.modifier = some Modifier.ZeroOrMore then Res.ok prem
       else sliceFrom prem 1).bind fun rem2 =>
        (find_match_start f rem2 0 sp σ1).bind fun (fr, σ2) =>
          match fr with
          | none => .ok (none, σ2)
          | some (_, mstart) =>
            (sliceFrom rem2 mstart).bind fun rem3 =>
              (match_subpattern f rem3 sp σ2).bind fun (r2, σ3) =>
                match r2 with
                | none => .crash
                | some off2 =>
                  (sliceFrom rem3 off2).bind fun rem4 =>
                    match_loop f rem4 (some (sp, rem3)) rest σ3
    else .ok (none, σ1)

/-- C2 counterexample to the claim as stated: the rollback "advanced by one
consumed unit" does not exist when the pre-match remaining text is empty —
the matcher panics (out-of-range slice at line 370) instead of retrying or
failing.  Pattern `^(a?)b` against the empty line. -/
theorem C2_counterexample :
    match_pattern 12 [] "^(a?)b".toList false ⟨[], 0⟩ = .crash := rfl

/-- C2 amended: when a node of the walk fails against the current remaining
text, the loop behaves exactly as `backtrack_resume` describes (eligibility
of the immediately preceding node only, rollback position by quantifier,
one re-run of the start search for the failing node, resumption, and
failure otherwise) — except that it panics when the rollback or the
re-match is impossible (see `C2_counterexample`). -/
theorem C2_backtracking (f : Nat) (rem : List Char)
    (prev : Option (SubPattern × List Char)) (sp : SubPattern)
    (rest : List SubPattern) (σ σ1 : GState)
    (hfail : match_subpattern f rem sp σ = .ok (none, σ1)) :
    match_loop (f + 1) rem prev (sp :: rest) σ =
      backtrack_resume f prev sp rest σ1 := by
  rw [match_loop_cons, hfail]
  rfl

/-- Witness for C2 amended: a failing literal with no preceding node. -/
theorem C2_witness :
    match_loop 6 ['x'] none [.mk (.Literal 'b') none] ⟨[], 0⟩ =
      backtrack_resume 5 none (.mk (.Literal 'b') none) [] ⟨[], 0⟩ :=
  C2_backtracking 5 ['x'] none (.mk (.Literal 'b') none) [] ⟨[], 0⟩ ⟨[], 0⟩ rfl

/-! ### Claim C8 -/

/-- C8: the `InputStart` branch of the per-kind dispatch is an
`unreachable!()` panic — and it IS reachable, contrary to the claim and to
the code's own assertion: a mid-pattern `^` (`a^` against `"a"`) and
`force_from_start` over a pattern beginning with `^` (as used when a
captured `^` is re-parsed during backreference resolution) both walk an
`InputStart` node through the generic matcher and panic. -/
theorem C8_inputstart_dispatch_reachable :
    (∀ (f : Nat) (rem : List Char) (σ : GState),
      match_subpattern_kind (f + 1) rem .InputStart σ = .crash) ∧
    match_pattern 12 "a".toList "a^".toList false ⟨[], 0⟩ = .crash ∧
    match_pattern 12 "a".toList "^a".toList true ⟨[], 0⟩ = .crash := by
  exact ⟨fun f rem σ => rfl, rfl, rfl⟩

/-! ### Table preservation: captures are never overwritten or removed -/

/-- Every entry of `t` is still present, unchanged, in `t'`. -/
def tblPreserve (t t' : List (Nat × List Char)) : Prop :=
  ∀ k v, lookupTable t k = some v → lookupTable t' k = some v

theorem tblPreserve_refl (t : List (Nat × List Char)) : tblPreserve t t :=
  fun _ _ h => h

theorem tblPreserve_trans {a b c : List (Nat × List Char)}
    (h1 : tblPreserve a b) (h2 : tblPreserve b c) : tblPreserve a c :=
  fun k v h => h2 k v (h1 k v h)

/-- `or_insert` never disturbs an existing entry. -/
theorem orInsert_preserve (key : Nat) (val : List Char)
    (t : List (Nat × List Char)) : tblPreserve t (orInsert key val t) := by
  intro k v h
  unfold orInsert
  cases hx : lookupTable t key with
  | some w => exact h
  | none =>
    show lookupTable ((key, val) :: t) k = some v
    unfold lookupTable
    by_cases hk : key = k
    · subst hk; rw [h] at hx; cases hx
    · rw [if_neg hk]; exact h

/-- `or_insert` semantics at its own key: first write wins. -/
theorem orInsert_lookup_self (key : Nat) (val : List Char)
    (t : List (Nat × List Char)) :
    lookupTable (orInsert key val t) key =
      some ((lookupTable t key).getD val) := by
  cases hx : lookupTable t key with
  | some w => simp [orInsert, hx]
  | none => simp [orInsert, hx, lookupTable]

theorem ok_pair_inv {α β : Type} {a c : α} {b d : β}
    (h : (Res.ok (a, b) : Res (α × β)) = .ok (c, d)) : a = c ∧ b = d := by
  simp only [Res.ok.injEq, Prod.mk.injEq] at h
  exact h

/-- Master invariant: every matcher function only extends the capture table
(entries are inserted with `or_insert`, never overwritten or removed). -/
theorem state_preserve : ∀ f : Nat,
    (∀ rem kind σ r σ', match_subpattern_kind f rem kind σ = .ok (r, σ') →
      tblPreserve σ.table σ'.table) ∧
    (∀ rem v σ r σ', alternatives_loop f rem v σ = .ok (r, σ') →
      tblPreserve σ.table σ'.table) ∧
    (∀ rem v σ r σ', not_alternatives_loop f rem v σ = .ok (r, σ') →
      tblPreserve σ.table σ'.table) ∧
    (∀ rem id gs σ r σ', groups_loop f rem id gs σ = .ok (r, σ') →
      tblPreserve σ.table σ'.table) ∧
    (∀ rem kind σ still σ', star_loop f rem kind σ = .ok (still, σ') →
      tblPreserve σ.table σ'.table) ∧
    (∀ rem sp σ r σ', match_subpattern f rem sp σ = .ok (r, σ') →
      tblPreserve σ.table σ'.table) ∧
    (∀ rem sps σ r σ', match_all_subpatterns f rem sps σ = .ok (r, σ') →
      tblPreserve σ.table σ'.table) ∧
    (∀ suffix n sp σ r σ', find_match_start f suffix n sp σ = .ok (r, σ') →
      tblPreserve σ.table σ'.table) ∧
    (∀ rem prev sps σ r σ', match_loop f rem prev sps σ = .ok (r, σ') →
      tblPreserve σ.table σ'.table) ∧
    (∀ input pat force σ r σ', match_pattern f input pat force σ = .ok (r, σ') →
      tblPreserve σ.table σ'.table) := by
  intro f
  induction f with
  | zero =>
    refine ⟨?_, ?_, ?_, ?_, ?_, ?_, ?_, ?_, ?_, ?_⟩ <;>
      (intros; exact Res.noConfusion (by assumption))
  | succ f ih =>
    obtain ⟨ihKind, ihAlts, ihNot, ihGrp, ihStar, ihSub, ihAll, ihFms, ihLoop, ihMP⟩ := ih
    have hKind : ∀ rem kind σ r σ',
        match_subpattern_kind (f + 1) rem kind σ = .ok (r, σ') →
        tblPreserve σ.table σ'.table := by
      intro rem kind σ r σ' h
      cases kind with
      | InputStart => exact Res.noConfusion h
      | InputEnd => obtain ⟨-, rfl⟩ := ok_pair_inv h; exact tblPreserve_refl _
      | Any => obtain ⟨-, rfl⟩ := ok_pair_inv h; exact tblPreserve_refl _
      | Literal l => obtain ⟨-, rfl⟩ := ok_pair_inv h; exact tblPreserve_refl _
      | Digit => obtain ⟨-, rfl⟩ := ok_pair_inv h; exact tblPreserve_refl _
      | AlphaNumeric => obtain ⟨-, rfl⟩ := ok_pair_inv h; exact tblPreserve_refl _
      | Alternatives v => exact ihAlts _ _ _ _ _ h
      | NotAlternatives v => exact ihNot _ _ _ _ _ h
      | AlternateGroups id gs => exact ihGrp _ _ _ _ _ _ h
      | BackRef i =>
        rw [msk_backref] at h
        cases hb : lookupTable σ.table (backrefKey i) with
        | none =>
          rw [hb] at h
          obtain ⟨-, rfl⟩ := ok_pair_inv h
          exact tblPreserve_refl _
        | some g =>
          rw [hb] at h
          rw [Res.bind_eq_ok_iff] at h
          obtain ⟨⟨rr, σ2⟩, hmp, hres⟩ := h
          have p1 := ihMP _ _ _ _ _ _ hmp
          dsimp only at hres
          refine tblPreserve_trans p1 ?_
          cases rr with
          | none => obtain ⟨-, rfl⟩ := ok_pair_inv hres; exact tblPreserve_refl _
          | some se =>
            obtain ⟨s, e⟩ := se
            dsimp only at hres
            by_cases hs : s = 0
            · rw [if_pos hs] at hres
              obtain ⟨-, rfl⟩ := ok_pair_inv hres
              exact tblPreserve_refl _
            · rw [if_neg hs] at hres
              obtain ⟨-, rfl⟩ := ok_pair_inv hres
              exact tblPreserve_refl _
    have hAlts : ∀ rem v σ r σ',
        alternatives_loop (f + 1) rem v σ = .ok (r, σ') →
        tblPreserve σ.table σ'.table := by
      intro rem v σ r σ' h
      cases v with
      | nil => obtain ⟨-, rfl⟩ := ok_pair_inv h; exact tblPreserve_refl _
      | cons sp sps =>
        rw [alternatives_loop_cons, Res.bind_eq_ok_iff] at h
        obtain ⟨⟨r2, σ2⟩, hsub, hres⟩ := h
        have p1 := ihSub _ _ _ _ _ hsub
        dsimp only at hres
        refine tblPreserve_trans p1 ?_
        cases r2 with
        | some off => obtain ⟨-, rfl⟩ := ok_pair_inv hres; exact tblPreserve_refl _
        | none => exact ihAlts _ _ _ _ _ hres
    have hNot : ∀ rem v σ r σ',
        not_alternatives_loop (f + 1) rem v σ = .ok (r, σ') →
        tblPreserve σ.table σ'.table := by
      intro rem v σ r σ' h
      cases v with
      | nil => obtain ⟨-, rfl⟩ := ok_pair_inv h; exact tblPreserve_refl _
      | cons sp sps =>
        rw [not_alternatives_loop_cons, Res.bind_eq_ok_iff] at h
        obtain ⟨⟨r2, σ2⟩, hsub, hres⟩ := h
        have p1 := ihSub _ _ _ _ _ hsub
        dsimp only at hres
        refine tblPreserve_trans p1 ?_
        cases r2 with
        | some off => obtain ⟨-, rfl⟩ := ok_pair_inv hres; exact tblPreserve_refl _
        | none => exact ihNot _ _ _ _ _ hres
    have hGrp : ∀ rem id gs σ r σ',
        groups_loop (f + 1) rem id gs σ = .ok (r, σ') →
        tblPreserve σ.table σ'.table := by
      intro rem id gs σ r σ' h
      cases gs with
      | nil => obtain ⟨-, rfl⟩ := ok_pair_inv h; exact tblPreserve_refl _
      | cons g rest =>
        rw [groups_loop_cons, Res.bind_eq_ok_iff] at h
        obtain ⟨⟨r2, σ2⟩, hall, hres⟩ := h
        have p1 := ihAll _ _ _ _ _ hall
        dsimp only at hres
        refine tblPreserve_trans p1 ?_
        cases r2 with
        | none => exact ihGrp _ _ _ _ _ _ hres
        | some off =>
          rw [Res.bind_eq_ok_iff] at hres
          obtain ⟨cap, hslice, hres2⟩ := hres
          obtain ⟨-, rfl⟩ := ok_pair_inv hres2
          exact orInsert_preserve _ _ _
    have hStar : ∀ rem kind σ still σ',
        star_loop (f + 1) rem kind σ = .ok (still, σ') →
        tblPreserve σ.table σ'.table := by
      intro rem kind σ still σ' h
      rw [star_loop_succ, Res.bind_eq_ok_iff] at h
      obtain ⟨⟨rk, σ2⟩, hkind, hres⟩ := h
      have p1 := ihKind _ _ _ _ _ hkind
      dsimp only at hres
      refine tblPreserve_trans p1 ?_
      cases rk with
      | none => obtain ⟨-, rfl⟩ := ok_pair_inv hres; exact tblPreserve_refl _
      | some off =>
        rw [Res.bind_eq_ok_iff] at hres
        obtain ⟨rem2, hslice, hres2⟩ := hres
        by_cases he : rem2.isEmpty
        · rw [if_pos he] at hres2
          obtain ⟨-, rfl⟩ := ok_pair_inv hres2
          exact tblPreserve_refl _
        · rw [if_neg he] at hres2
          exact ihStar _ _ _ _ _ hres2
    have hSub : ∀ rem sp σ r σ',
        match_subpattern (f + 1) rem sp σ = .ok (r, σ') →
        tblPreserve σ.table σ'.table := by
      intro rem sp σ r σ' h
      obtain ⟨k, mod⟩ := sp
      cases mod with
      | none => exact ihKind _ _ _ _ _ h
      | some m =>
        cases m with
        | ZeroOrOne =>
          rw [match_subpattern_zeroOrOne, Res.bind_eq_ok_iff] at h
          obtain ⟨⟨rk, σ2⟩, hkind, hres⟩ := h
          have p1 := ihKind _ _ _ _ _ hkind
          dsimp only at hres
          refine tblPreserve_trans p1 ?_
          cases rk with
          | some off => obtain ⟨-, rfl⟩ := ok_pair_inv hres; exact tblPreserve_refl _
          | none => obtain ⟨-, rfl⟩ := ok_pair_inv hres; exact tblPreserve_refl _
        | ZeroOrMore =>
          rw [match_subpattern_star f rem k .ZeroOrMore σ (Or.inl rfl),
            Res.bind_eq_ok_iff] at h
          obtain ⟨⟨still, σ2⟩, hstar, hres⟩ := h
          have p1 := ihStar _ _ _ _ _ hstar
          dsimp only at hres
          rw [if_neg (by simp)] at hres
          obtain ⟨-, rfl⟩ := ok_pair_inv hres
          exact p1
        | OneOrMore =>
          rw [match_subpattern_star f rem k .OneOrMore σ (Or.inr rfl),
            Res.bind_eq_ok_iff] at h
          obtain ⟨⟨still, σ2⟩, hstar, hres⟩ := h
          have p1 := ihStar _ _ _ _ _ hstar
          dsimp only at hres
          by_cases hz : rem.length - still.length = 0
          · rw [if_pos (by simp [hz])] at hres
            obtain ⟨-, rfl⟩ := ok_pair_inv hres
            exact p1
          · rw [if_neg (by simp [hz])] at hres
            obtain ⟨-, rfl⟩ := ok_pair_inv hres
            exact p1
    have hAll : ∀ rem sps σ r σ',
        match_all_subpatterns (f + 1) rem sps σ = .ok (r, σ') →
        tblPreserve σ.table σ'.table := by
      intro rem sps σ r σ' h
      cases sps with
      | nil => obtain ⟨-, rfl⟩ := ok_pair_inv h; exact tblPreserve_refl _
      | cons sp rest =>
        rw [match_all_cons, Res.bind_eq_ok_iff] at h
        obtain ⟨⟨r2, σ2⟩, hsub, hres⟩ := h
        have p1 := ihSub _ _ _ _ _ hsub
        dsimp only at hres
        refine tblPreserve_trans p1 ?_
        cases r2 with
        | none => obtain ⟨-, rfl⟩ := ok_pair_inv hres; exact tblPreserve_refl _
        | some off =>
          rw [Res.bind_eq_ok_iff] at hres
          obtain ⟨rem2, hslice, hres2⟩ := hres
          rw [Res.bind_eq_ok_iff] at hres2
          obtain ⟨⟨r3, σ3⟩, hall, hres3⟩ := hres2
          have p2 := ihAll _ _ _ _ _ hall
          dsimp only at hres3
          refine tblPreserve_trans p2 ?_
          cases r3 with
          | none => obtain ⟨-, rfl⟩ := ok_pair_inv hres3; exact tblPreserve_refl _
          | some off2 => obtain ⟨-, rfl⟩ := ok_pair_inv hres3; exact tblPreserve_refl _
    have hFms : ∀ suffix n sp σ r σ',
        find_match_start (f + 1) suffix n sp σ = .ok (r, σ') →
        tblPreserve σ.table σ'.table := by
      intro suffix n sp σ r σ' h
      cases suffix with
      | nil => obtain ⟨-, rfl⟩ := ok_pair_inv h; exact tblPreserve_refl _
      | cons c cs =>
        rw [find_match_start_cons, Res.bind_eq_ok_iff] at h
        obtain ⟨⟨r2, σ2⟩, hsub, hres⟩ := h
        have p1 := ihSub _ _ _ _ _ hsub
        dsimp only at hres
        refine tblPreserve_trans p1 ?_
        cases r2 with
        | some off =>
          rw [Res.bind_eq_ok_iff] at hres
          obtain ⟨rem2, hslice, hres2⟩ := hres
          obtain ⟨-, rfl⟩ := ok_pair_inv hres2
          exact tblPreserve_refl _
        | none => exact ihFms _ _ _ _ _ _ hres
    have hLoop : ∀ rem prev sps σ r σ',
        match_loop (f + 1) rem prev sps σ = .ok (r, σ') →
        tblPreserve σ.table σ'.table := by
      intro rem prev sps σ r σ' h
      cases sps with
      | nil => obtain ⟨-, rfl⟩ := ok_pair_inv h; exact tblPreserve_refl _
      | cons sp rest =>
        rw [match_loop_cons, Res.bind_eq_ok_iff] at h
        obtain ⟨⟨r2, σ1⟩, hsub, hres⟩ := h
        have p1 := ihSub _ _ _ _ _ hsub
        dsimp only at hres
        refine tblPreserve_trans p1 ?_
        cases r2 with
        | some off =>
          rw [Res.bind_eq_ok_iff] at hres
          obtain ⟨rem2, hslice, hres2⟩ := hres
          exact ihLoop _ _ _ _ _ _ hres2
        | none =>
          cases prev with
          | none => obtain ⟨-, rfl⟩ := ok_pair_inv hres; exact tblPreserve_refl _
          | some pp =>
            obtain ⟨psp, prem⟩ := pp
            dsimp only at hres
            by_cases he : isEligible psp
            · rw [if_pos (by simp [he])] at hres
              rw [Res.bind_eq_ok_iff] at hres
              obtain ⟨rem2, hroll, hres2⟩ := hres
              rw [Res.bind_eq_ok_iff] at hres2
              obtain ⟨⟨fr, σ2⟩, hfms, hres3⟩ := hres2
              have p2 := ihFms _ _ _ _ _ _ hfms
              dsimp only at hres3
              refine tblPreserve_trans p2 ?_
              cases fr with
              | none => obtain ⟨-, rfl⟩ := ok_pair_inv hres3; exact tblPreserve_refl _
              | some fm =>
                obtain ⟨frem, mstart⟩ := fm
                rw [Res.bind_eq_ok_iff] at hres3
                obtain ⟨rem3, hslice3, hres4⟩ := hres3
                rw [Res.bind_eq_ok_iff] at hres4
                obtain ⟨⟨r3, σ3⟩, hsub2, hres5⟩ := hres4
                have p3 := ihSub _ _ _ _ _ hsub2
                dsimp only at hres5
                refine tblPreserve_trans p3 ?_
                cases r3 with
                | none => exact Res.noConfusion hres5
                | some off2 =>
                  rw [Res.bind_eq_ok_iff] at hres5
                  obtain ⟨rem4, hslice4, hres6⟩ := hres5
                  exact ihLoop _ _ _ _ _ _ hres6
            · rw [if_neg (by simp [he])] at hres
              obtain ⟨-, rfl⟩ := ok_pair_inv hres
              exact tblPreserve_refl _
    have hMP : ∀ input pat force σ r σ',
        match_pattern (f + 1) input pat force σ = .ok (r, σ') →
        tblPreserve σ.table σ'.table := by
      intro input pat force σ r σ' h
      rw [match_pattern_succ] at h
      cases hp : parse_pattern pat σ.counter with
      | fuelOut => rw [hp] at h; exact Res.noConfusion h
      | crash => rw [hp] at h; exact Res.noConfusion h
      | ok pr =>
        obtain ⟨sps, ctr2⟩ := pr
        rw [hp] at h
        dsimp only at h
        cases sps with
        | nil =>
          obtain ⟨-, rfl⟩ := ok_pair_inv h
          exact tblPreserve_refl _
        | cons sp0 rest =>
          dsimp only at h
          have hwrap : ∀ (start : Nat) (σb : GState)
              (res : Res (Option (List Char) × GState)),
              (res.bind fun (fr, σ2) =>
                match fr with
                | none => Res.ok ((none : Option (Nat × Nat)), σ2)
                | some finalRem =>
                  .ok (some (start, input.length - finalRem.length), σ2)) =
                .ok (r, σ') →
              (∀ fr σ2, res = .ok (fr, σ2) →
                tblPreserve σb.table σ2.table) →
              tblPreserve σb.table σ'.table := by
            intro start σb res hres hpres
            rw [Res.bind_eq_ok_iff] at hres
            obtain ⟨⟨fr, σ2⟩, hr2, hres2⟩ := hres
            have := hpres fr σ2 hr2
            dsimp only at hres2
            cases fr with
            | none => obtain ⟨-, rfl⟩ := ok_pair_inv hres2; exact this
            | some finalRem => obtain ⟨-, rfl⟩ := ok_pair_inv hres2; exact this
          by_cases hforce : force = true
          · rw [if_pos (by simp [hforce])] at h
            exact hwrap 0 σ _ h (fun fr σ2 hr2 => ihLoop _ _ _ ⟨σ.table, ctr2⟩ _ _ hr2)
          rw [if_neg (by simp [hforce])] at h
          by_cases his : kindIsInputStart sp0.kind
          · rw [if_pos (by simp [his])] at h
            exact hwrap 0 σ _ h (fun fr σ2 hr2 => ihLoop _ _ _ ⟨σ.table, ctr2⟩ _ _ hr2)
          · rw [if_neg (by simp [his])] at h
            rw [Res.bind_eq_ok_iff] at h
            obtain ⟨⟨fr, σ2⟩, hfms, hres⟩ := h
            have p1 := ihFms _ _ _ _ _ _ hfms
            dsimp only at hres
            cases fr with
            | none =>
              obtain ⟨-, rfl⟩ := ok_pair_inv hres
              exact p1
            | some rn =>
              obtain ⟨rem, n⟩ := rn
              refine tblPreserve_trans p1 ?_
              exact hwrap n σ2 _ hres (fun fr2 σ3 hr3 => ihLoop _ _ _ σ2 _ _ hr3)
      all_goals skip
    exact ⟨hKind, hAlts, hNot, hGrp, hStar, hSub, hAll, hFms, hLoop, hMP⟩

/-- A successful `AlternateGroups` match leaves a capture recorded under its
group id. -/
theorem groups_loop_sets_capture : ∀ (f : Nat) (rem : List Char) (id : Nat)
    (gs : List (List SubPattern)) (σ : GState) (off : Nat) (σ' : GState),
    groups_loop f rem id gs σ = .ok (some off, σ') →
    (lookupTable σ'.table id).isSome = true := by
  intro f
  induction f with
  | zero => intro _ _ _ _ _ _ h; exact Res.noConfusion h
  | succ f ih =>
    intro rem id gs σ off σ' h
    cases gs with
    | nil =>
      obtain ⟨h1, -⟩ := ok_pair_inv h
      cases h1
    | cons g rest =>
      rw [groups_loop_cons, Res.bind_eq_ok_iff] at h
      obtain ⟨⟨r2, σ2⟩, hall, hres⟩ := h
      dsimp only at hres
      cases r2 with
      | none => exact ih _ _ _ _ _ _ hres
      | some off2 =>
        rw [Res.bind_eq_ok_iff] at hres
        obtain ⟨cap, hslice, hres2⟩ := hres
        obtain ⟨-, rfl⟩ := ok_pair_inv hres2
        show (lookupTable (orInsert id cap σ2.table) id).isSome = true
        rw [orInsert_lookup_self]
        rfl

/-! ### Claim C6 -/

/-- C6: captures are write-once per group id.  (a) `or_insert` records the
new value only when the key is absent, and leaves an existing capture
unchanged; (b) a successful `AlternateGroups` match records a capture under
its id, and any capture already recorded under that id survives unchanged;
(c) globally, every entry of the capture table survives, unchanged, any
matcher invocation (per-kind dispatch and whole top-level matches alike),
so within the process lifetime later attempts to set the same id are
no-ops. -/
theorem C6_write_once_captures :
    (∀ (key : Nat) (val : List Char) (t : List (Nat × List Char)),
      lookupTable (orInsert key val t) key =
        some ((lookupTable t key).getD val)) ∧
    (∀ (f : Nat) (rem : List Char) (id : Nat) (gs : List (List SubPattern))
      (σ : GState) (off : Nat) (σ' : GState),
      match_subpattern_kind (f + 1) rem (.AlternateGroups id gs) σ =
        .ok (some off, σ') →
      (lookupTable σ'.table id).isSome = true ∧
      (∀ v, lookupTable σ.table id = some v →
        lookupTable σ'.table id = some v)) ∧
    (∀ (f : Nat) (input pat : List Char) (force : Bool) (σ : GState)
      (r : Option (Nat × Nat)) (σ' : GState),
      match_pattern f input pat force σ = .ok (r, σ') →
      ∀ k v, lookupTable σ.table k = some v → lookupTable σ'.table k = some v) := by
  refine ⟨?_, ?_, ?_⟩
  · exact orInsert_lookup_self
  · intro f rem id gs σ off σ' h
    rw [msk_groups] at h
    exact ⟨groups_loop_sets_capture f rem id gs σ off σ' h,
      fun v hv => ((state_preserve (f + 1)).1 rem _ σ _ σ' (by rw [msk_groups]; exact h))
        id v hv⟩
  · intro f input pat force σ r σ' h
    exact ((state_preserve f).2.2.2.2.2.2.2.2.2 input pat force σ r σ' h)

/-- Witness for C6: a group with id 0 matching `"a"` when id 0 already holds
`"x"` succeeds but leaves the old capture in place. -/
theorem C6_witness :
    ((lookupTable (orInsert 0 ['a'] [(0, ['x'])]) 0 =
        some ((lookupTable [(0, ['x'])] 0).getD ['a'])) ∧
      lookupTable (orInsert 0 ['a'] [(0, ['x'])]) 0 = some ['x']) ∧
    ((lookupTable (GState.mk [(0, ['x'])] 1).table 0).isSome = true ∧
      lookupTable (GState.mk [(0, ['x'])] 1).table 0 = some ['x']) := by
  constructor
  · exact ⟨C6_write_once_captures.1 0 ['a'] [(0, ['x'])], rfl⟩
  · have h := C6_write_once_captures.2.1 4 "a".toList 0 [[.mk (.Literal 'a') none]]
      ⟨[(0, ['x'])], 1⟩ 1 ⟨[(0, ['x'])], 1⟩ rfl
    exact ⟨h.1, h.2 ['x'] rfl⟩

/-! ### Claim C1: literal-only patterns -/

/-- A pattern character with no special meaning to the compiler. -/
def litChar (c : Char) : Prop :=
  c ≠ '+' ∧ c ≠ '*' ∧ c ≠ '?' ∧ c ≠ '.' ∧ c ≠ '^' ∧ c ≠ '$' ∧ c ≠ '(' ∧
    c ≠ '[' ∧ c ≠ '\\'

instance (c : Char) : Decidable (litChar c) := by
  unfold litChar
  infer_instance

def mkLit (c : Char) : SubPattern := .mk (.Literal c) none

/-- Index of the first occurrence of the character `c` (spec side). -/
def firstIdx (c : Char) : List Char → Option Nat
  | [] => none
  | d :: l => if d = c then some 0 else (firstIdx c l).map (· + 1)

theorem peekMod_of_lit (cs : List Char) (h : ∀ x ∈ cs, litChar x) :
    peekMod cs = none := by
  cases cs with
  | nil => rfl
  | cons c cs =>
    obtain ⟨h1, h2, h3, -⟩ := h c (List.mem_cons_self c cs)
    simp [peekMod, h1, h2, h3]

/-- Compiling a literal-only pattern yields one unquantified `Literal` node
per character and does not touch the group counter. -/
theorem parse_pattern_lits : ∀ (p : List Char) (ctr : Nat),
    (∀ x ∈ p, litChar x) →
    parse_pattern p ctr = .ok (p.map mkLit, ctr) := by
  intro p
  induction p with
  | nil => intro ctr _; rfl
  | cons c cs ih =>
    intro ctr h
    obtain ⟨h1, h2, h3, h4, h5, h6, h7, h8, h9⟩ := h c (List.mem_cons_self c cs)
    have hcs : ∀ x ∈ cs, litChar x := fun x hx => h x (List.mem_cons_of_mem c hx)
    rw [parse_pattern_lit c cs ctr h1 h2 h3 h4 h5 h6 h7 h8 h9, ih ctr hcs]
    simp [peekMod_of_lit cs hcs, mkLit]

theorem match_subpattern_lit (f : Nat) (rem : List Char) (c : Char) (σ : GState) :
    match_subpattern (f + 2) rem (mkLit c) σ =
      .ok (match rem with
           | [] => none
           | d :: _ => if d = c then some 1 else none, σ) := rfl

theorem isEligible_mkLit (c : Char) : isEligible (mkLit c) = false := rfl

/-- Walking a sequence of literal nodes: succeeds exactly on a prefix match,
consuming it; there is no retry (a literal previous node is never eligible
for backtracking). -/
theorem match_loop_lits : ∀ (cs : List Char) (f : Nat) (rem : List Char)
    (prev : Option (SubPattern × List Char)) (σ : GState),
    (prev = none ∨ ∃ d s, prev = some (mkLit d, s)) →
    cs.length + 3 ≤ f →
    match_loop f rem prev (cs.map mkLit) σ =
      .ok (if cs.isPrefixOf rem then some (rem.drop cs.length) else none, σ) := by
  intro cs
  induction cs with
  | nil =>
    intro f rem prev σ hprev hf
    obtain ⟨f1, rfl⟩ : ∃ f1, f = f1 + 1 := ⟨f - 1, by omega⟩
    rw [List.map_nil, match_loop_nil]
    simp [List.isPrefixOf]
  | cons c cs ih =>
    intro f rem prev σ hprev hf
    obtain ⟨f1, rfl⟩ : ∃ f1, f = f1 + 1 := ⟨f - 1, by omega⟩
    rw [List.map_cons, match_loop_cons]
    obtain ⟨f2, rfl⟩ : ∃ f2, f1 = f2 + 2 := ⟨f1 - 2, by omega⟩
    rw [match_subpattern_lit f2 rem c σ]
    cases rem with
    | nil =>
      rw [Res.bind_ok]
      dsimp only
      have : (c :: cs).isPrefixOf [] = false := rfl
      rw [this]
      rcases hprev with rfl | ⟨d, s, rfl⟩
      · simp
      · dsimp only
        rw [if_neg (by rw [isEligible_mkLit]; exact fun hh => Bool.noConfusion hh)]
        simp
    | cons x rem' =>
      rw [Res.bind_ok]
      dsimp only
      by_cases hx : x = c
      · rw [if_pos hx]
        dsimp only
        have hslice : sliceFrom (x :: rem') 1 = .ok rem' := by
          rw [sliceFrom, if_pos (by simp)]
          rfl
        rw [hslice, Res.bind_ok]
        rw [ih (f2 + 2) rem' (some (mkLit c, x :: rem')) σ
          (Or.inr ⟨c, x :: rem', rfl⟩) (by simp at hf ⊢; omega)]
        subst hx
        show _ = Res.ok (if (x :: cs).isPrefixOf (x :: rem') then
          some ((x :: rem').drop (x :: cs).length) else none, σ)
        have : (x :: cs).isPrefixOf (x :: rem') = cs.isPrefixOf rem' := by
          show ((x == x) && cs.isPrefixOf rem') = cs.isPrefixOf rem'
          rw [beq_self_eq_true, Bool.true_and]
        rw [this]
        rfl
      · rw [if_neg hx]
        dsimp only
        have : (c :: cs).isPrefixOf (x :: rem') = false := by
          show ((c == x) && cs.isPrefixOf rem') = false
          rw [beq_eq_false_iff_ne.mpr (Ne.symm hx), Bool.false_and]
        rw [this]
        rcases hprev with rfl | ⟨d, s, rfl⟩
        · simp
        · dsimp only
          rw [if_neg (by rw [isEligible_mkLit]; exact fun hh => Bool.noConfusion hh)]
          simp

/-- The start probe for a single literal node finds exactly the first
occurrence of the character. -/
theorem find_match_start_lit : ∀ (suffix : List Char) (f n : Nat) (c : Char)
    (σ : GState), suffix.length + 3 ≤ f →
    find_match_start f suffix n (mkLit c) σ =
      .ok ((firstIdx c suffix).map (fun k => (suffix.drop (k + 1), n + k)), σ) := by
  intro suffix
  induction suffix with
  | nil =>
    intro f n c σ hf
    obtain ⟨f1, rfl⟩ : ∃ f1, f = f1 + 1 := ⟨f - 1, by omega⟩
    rw [find_match_start_nil]
    rfl
  | cons x cs ih =>
    intro f n c σ hf
    obtain ⟨f1, rfl⟩ : ∃ f1, f = f1 + 1 := ⟨f - 1, by omega⟩
    rw [find_match_start_cons]
    obtain ⟨f2, rfl⟩ : ∃ f2, f1 = f2 + 2 := ⟨f1 - 2, by omega⟩
    rw [match_subpattern_lit f2 (x :: cs) c σ, Res.bind_ok]
    dsimp only
    by_cases hx : x = c
    · rw [if_pos hx]
      dsimp only
      have hslice : sliceFrom (x :: cs) 1 = .ok cs := by
        rw [sliceFrom, if_pos (by simp)]
        rfl
      rw [hslice]
      show _ = Res.ok ((firstIdx c (x :: cs)).map
        (fun k => ((x :: cs).drop (k + 1), n + k)), σ)
      rw [show firstIdx c (x :: cs) = some 0 by simp [firstIdx, hx]]
      simp
    · rw [if_neg hx]
      dsimp only
      rw [ih (f2 + 2) (n + 1) c σ (by simp at hf ⊢; omega)]
      rw [show firstIdx c (x :: cs) = (firstIdx c cs).map (· + 1) by
        simp [firstIdx, hx]]
      cases hidx : firstIdx c cs with
      | none => simp
      | some k =>
        simp only [hidx, Option.map_some']
        show Res.ok (some (cs.drop (k + 1), n + 1 + k), σ) = _
        have h1 : (x :: cs).drop (k + 1 + 1) = cs.drop (k + 1) := rfl
        rw [h1]
        have h2 : n + 1 + k = n + (k + 1) := by omega
        rw [h2]

theorem firstIdx_spec : ∀ (l : List Char) (c : Char) (k : Nat),
    firstIdx c l = some k →
    (∃ t, l.drop k = c :: t) ∧
      (∀ j, j < k → ∃ d t, l.drop j = d :: t ∧ d ≠ c) := by
  intro l
  induction l with
  | nil => intro c k h; cases h
  | cons d l ih =>
    intro c k h
    by_cases hd : d = c
    · rw [show firstIdx c (d :: l) = some 0 by simp [firstIdx, hd]] at h
      obtain rfl : k = 0 := by cases h; rfl
      exact ⟨⟨l, by simp [hd]⟩, fun j hj => absurd hj (by omega)⟩
    · rw [show firstIdx c (d :: l) = (firstIdx c l).map (· + 1) by
        simp [firstIdx, hd]] at h
      cases hidx : firstIdx c l with
      | none => rw [hidx] at h; cases h
      | some k' =>
        rw [hidx, Option.map_some'] at h
        obtain rfl : k = k' + 1 := by cases h; rfl
        obtain ⟨⟨t, ht⟩, hmin⟩ := ih c k' hidx
        refine ⟨⟨t, ht⟩, ?_⟩
        intro j hj
        cases j with
        | zero => exact ⟨d, l, rfl, hd⟩
        | succ j' => exact hmin j' (by omega)

/-- C1 counterexample: the literal pattern `ab` IS a substring of `axab`,
yet the top-level match fails — after the start probe fixes the first
position whose character matches the pattern's first character, a later
failure in the node walk does not restart the probe at the next offset. -/
theorem C1_counterexample :
    match_pattern 14 "axab".toList "ab".toList false ⟨[], 0⟩ =
      .ok (none, ⟨[], 0⟩) ∧
    "ab".toList <:+: "axab".toList :=
  ⟨rfl, by decide⟩

/-- C1 amended: for a non-empty literal-only pattern `c :: cs`, the
top-level match (with `force_from_start = false`) succeeds iff the pattern
occurs as a prefix at the FIRST index where its first character `c` occurs
in the input; in that case the reported span is `(k, k + length)`, which is
then also the first occurrence of the pattern as a substring (so the
span part of the original claim is right; the "iff substring" part is not,
see `C1_counterexample`).  The empty literal pattern always matches at
`(0, 0)`.  The global state is returned unchanged. -/
theorem C1_literal_first_occurrence (c : Char) (cs input : List Char)
    (f : Nat) (σ : GState) (hlit : ∀ x ∈ c :: cs, litChar x)
    (hf : input.length + cs.length + 8 ≤ f) :
    (match_pattern f input (c :: cs) false σ =
      .ok ((firstIdx c input).bind (fun k =>
        if (c :: cs).isPrefixOf (input.drop k) then
          some (k, k + cs.length + 1) else none), σ)) ∧
    (∀ k e, ((firstIdx c input).bind (fun k =>
        if (c :: cs).isPrefixOf (input.drop k) then
          some (k, k + cs.length + 1) else none)) = some (k, e) →
      (c :: cs) <+: input.drop k ∧
        (∀ j, j < k → ¬ (c :: cs) <+: input.drop j) ∧
        e = k + (c :: cs).length) ∧
    (∀ (f' : Nat) (input' : List Char) (σ' : GState),
      match_pattern (f' + 1) input' [] false σ' = .ok (some (0, 0), σ')) := by
  refine ⟨?_, ?_, ?_⟩
  · obtain ⟨f1, rfl⟩ : ∃ f1, f = f1 + 1 := ⟨f - 1, by omega⟩
    rw [match_pattern_succ]
    rw [parse_pattern_lits (c :: cs) σ.counter hlit, List.map_cons]
    dsimp only
    rw [if_neg (fun hh => Bool.noConfusion hh)]
    rw [find_match_start_lit input f1 0 c ⟨σ.table, σ.counter⟩
      (by simp at hf; omega)]
    rw [Res.bind_ok]
    cases hidx : firstIdx c input with
    | none => rfl
    | some k =>
      rw [Option.map_some']
      dsimp only
      rw [match_loop_lits cs f1 (input.drop (k + 1)) none ⟨σ.table, σ.counter⟩
        (Or.inl rfl) (by simp at hf; omega)]
      rw [Res.bind_ok]
      obtain ⟨⟨t, ht⟩, hmin⟩ := firstIdx_spec input c k hidx
      have hdropk1 : input.drop (k + 1) = t := by
        rw [← List.drop_drop 1 k input, ht]
        rfl
      have hklen : k < input.length := by
        have hl := congrArg List.length ht
        rw [List.length_drop] at hl
        simp only [List.length_cons] at hl
        omega
      have hpref : (c :: cs).isPrefixOf (input.drop k) = cs.isPrefixOf t := by
        rw [ht]
        show ((c == c) && cs.isPrefixOf t) = cs.isPrefixOf t
        rw [beq_self_eq_true, Bool.true_and]
      by_cases hp : cs.isPrefixOf (input.drop (k + 1))
      · rw [if_pos hp]
        dsimp only
        have hlen : cs.length ≤ input.length - (k + 1) := by
          have := (List.isPrefixOf_iff_prefix.mp hp).length_le
          rw [List.length_drop] at this
          exact this
        have hend : input.length - ((input.drop (k + 1)).drop cs.length).length =
            k + cs.length + 1 := by
          rw [List.length_drop, List.length_drop]
          omega
        rw [hend]
        show Res.ok (some (0 + k, k + cs.length + 1), _) = _
        rw [Nat.zero_add]
        dsimp only [Option.bind]
        rw [if_pos (by rw [hpref, ← hdropk1]; exact hp)]
      · rw [if_neg hp]
        have hfalse : (c :: cs).isPrefixOf (input.drop k) = false := by
          rw [hpref, ← hdropk1]
          exact Bool.not_eq_true _ ▸ (Bool.eq_false_iff.mpr (fun he => hp (by rw [he])))
        dsimp only [Option.bind]
        rw [hfalse]
        rfl
  · intro k e h
    cases hidx : firstIdx c input with
    | none => rw [hidx] at h; cases h
    | some k0 =>
      rw [hidx] at h
      dsimp only [Option.bind] at h
      by_cases hp : (c :: cs).isPrefixOf (input.drop k0)
      · rw [if_pos hp] at h
        simp only [Option.some.injEq, Prod.mk.injEq] at h
        obtain ⟨rfl, rfl⟩ := h
        refine ⟨List.isPrefixOf_iff_prefix.mp hp, ?_, by simp; omega⟩
        intro j hj hpre
        obtain ⟨-, hmin⟩ := firstIdx_spec input c k0 hidx
        obtain ⟨d, t, hdt, hdc⟩ := hmin j hj
        obtain ⟨u, hu⟩ := hpre
        rw [hdt, List.cons_append] at hu
        exact hdc (by injection hu with h1 h2; exact h1.symm)
      · rw [if_neg hp] at h
        cases h
  · intro f' input' σ'
    rfl

/-- Witness for C1 amended at a concrete input: `ab` against `xaby`
matches with span `(1, 3)`, the first occurrence. -/
theorem C1_witness :
    match_pattern 20 "xaby".toList ('a' :: ['b']) false ⟨[], 0⟩ =
      .ok (some (1, 3), ⟨[], 0⟩) := by
  have h := (C1_literal_first_occurrence 'a' ['b'] "xaby".toList 20 ⟨[], 0⟩
    (by decide) (by decide)).1
  rw [h]
  rfl

/-! ### Claim C9: unrecognised escapes abort compilation -/

/-- Escape characters the compiler recognises after a backslash. -/
def isGoodEscape (c : Char) : Bool :=
  c = '\\' || c = 'd' || c = 'w' || c.isDigit

mutual
/-- The pattern text contains an escape sequence the compiler does not
recognise: a backslash followed by anything other than a backslash, `d`,
`w` or a decimal digit, or a trailing lone backslash (spec side, a single
escape-aware scan). -/
def hasBadEscape : List Char → Bool
  | [] => false
  | c :: cs => if c = '\\' then hasBadEscapeBS cs else hasBadEscape cs

/-- State of the scan right after an unconsumed backslash. -/
def hasBadEscapeBS : List Char → Bool
  | [] => true
  | nc :: cs2 => if isGoodEscape nc then hasBadEscape cs2 else true
end

theorem hasBad_cons_notbs {c : Char} (cs : List Char) (h : c ≠ '\\') :
    hasBadEscape (c :: cs) = hasBadEscape cs := by
  rw [hasBadEscape, if_neg h]

theorem hasBad_bs_nil : hasBadEscape ['\\'] = true := rfl

theorem hasBad_bs_cons (nc : Char) (cs2 : List Char) :
    hasBadEscape ('\\' :: nc :: cs2) =
      if isGoodEscape nc then hasBadEscape cs2 else true := rfl

/-- Scanning past a clean (well-escaped) prefix does not change the
bad-escape status. -/
theorem hasBadEscape_append : ∀ (a s : List Char), hasBadEscape a = false →
    hasBadEscape (a ++ s) = hasBadEscape s
  | [], s, _ => rfl
  | c :: cs, s, h => by
    by_cases hc : c = '\\'
    · subst hc
      cases cs with
      | nil => rw [hasBad_bs_nil] at h; cases h
      | cons nc cs2 =>
        rw [hasBad_bs_cons] at h
        by_cases hg : isGoodEscape nc
        · rw [if_pos hg] at h
          show hasBadEscape ('\\' :: nc :: (cs2 ++ s)) = hasBadEscape s
          rw [hasBad_bs_cons, if_pos hg]
          exact hasBadEscape_append cs2 s h
        · rw [if_neg hg] at h; cases h
    · rw [hasBad_cons_notbs cs hc] at h
      show hasBadEscape (c :: (cs ++ s)) = hasBadEscape s
      rw [hasBad_cons_notbs _ hc]
      exact hasBadEscape_append cs s h

/-- Appending after a clean prefix ending in a bad escape pair is bad, no
matter the continuation. -/
theorem hasBad_stable_pair (cur : List Char) (nc : Char)
    (hclean : hasBadEscape cur = false) (hbad : isGoodEscape nc = false) :
    ∀ t, hasBadEscape (cur ++ '\\' :: nc :: t) = true := by
  intro t
  rw [hasBadEscape_append cur _ hclean, hasBad_bs_cons, if_neg (by simp [hbad])]

theorem hasBad_trailing (cur : List Char) (hclean : hasBadEscape cur = false) :
    hasBadEscape (cur ++ ['\\']) = true := by
  rw [hasBadEscape_append cur _ hclean]
  rfl

theorem scanG_open (cs : List Char) (d : Nat) (cur : List Char)
    (acc : List (List Char)) :
    scanG ('(' :: cs) d cur acc = scanG cs (d + 1) (cur ++ ['(']) acc := by
  simp [scanG]

theorem scanG_close0 (cs : List Char) (cur : List Char)
    (acc : List (List Char)) :
    scanG (')' :: cs) 0 cur acc = (acc ++ [cur], cs) := by
  simp [scanG]

theorem scanG_closeS (cs : List Char) (d : Nat) (cur : List Char)
    (acc : List (List Char)) (h : d ≠ 0) :
    scanG (')' :: cs) d cur acc = scanG cs (d - 1) (cur ++ [')']) acc := by
  simp [scanG, h]

theorem scanG_split0 (cs : List Char) (cur : List Char)
    (acc : List (List Char)) :
    scanG ('|' :: cs) 0 cur acc = scanG cs 0 [] (acc ++ [cur]) := by
  simp [scanG]

theorem scanG_splitS (cs : List Char) (d : Nat) (cur : List Char)
    (acc : List (List Char)) (h : d ≠ 0) :
    scanG ('|' :: cs) d cur acc = scanG cs d (cur ++ ['|']) acc := by
  simp [scanG, h]

theorem scanG_push {c : Char} (cs : List Char) (d : Nat) (cur : List Char)
    (acc : List (List Char)) (h1 : c ≠ '(') (h2 : c ≠ ')') (h3 : c ≠ '|') :
    scanG (c :: cs) d cur acc = scanG cs d (cur ++ [c]) acc := by
  simp [scanG, h1, h2, h3]

/-- Groups already accumulated survive into the scanner's final result. -/
theorem scanG_acc_mono : ∀ (cs : List Char) (d : Nat) (cur : List Char)
    (acc : List (List Char)) (g : List Char), g ∈ acc →
    g ∈ (scanG cs d cur acc).1 := by
  intro cs
  induction cs with
  | nil => intro d cur acc g hg; simp [scanG]; exact Or.inl hg
  | cons c cs ih =>
    intro d cur acc g hg
    by_cases h1 : c = '('
    · subst h1; rw [scanG_open]; exact ih _ _ _ _ hg
    by_cases h2 : c = ')'
    · subst h2
      by_cases hd : d = 0
      · subst hd; rw [scanG_close0]; simp; exact Or.inl hg
      · rw [scanG_closeS _ _ _ _ hd]; exact ih _ _ _ _ hg
    by_cases h3 : c = '|'
    · subst h3
      by_cases hd : d = 0
      · subst hd; rw [scanG_split0]; exact ih _ _ _ _ (by simp [hg])
      · rw [scanG_splitS _ _ _ _ hd]; exact ih _ _ _ _ hg
    · rw [scanG_push _ _ _ _ h1 h2 h3]; exact ih _ _ _ _ hg

/-- The current accumulator lands (possibly extended) in some final
group. -/
theorem scanG_cur_lands : ∀ (cs : List Char) (d : Nat) (cur : List Char)
    (acc : List (List Char)), ∃ t, (cur ++ t) ∈ (scanG cs d cur acc).1 := by
  intro cs
  induction cs with
  | nil => intro d cur acc; exact ⟨[], by simp [scanG]⟩
  | cons c cs ih =>
    intro d cur acc
    by_cases h1 : c = '('
    · subst h1
      rw [scanG_open]
      obtain ⟨t, ht⟩ := ih (d + 1) (cur ++ ['(']) acc
      exact ⟨'(' :: t, by simpa using ht⟩
    by_cases h2 : c = ')'
    · subst h2
      by_cases hd : d = 0
      · subst hd; rw [scanG_close0]; exact ⟨[], by simp⟩
      · rw [scanG_closeS _ _ _ _ hd]
        obtain ⟨t, ht⟩ := ih (d - 1) (cur ++ [')']) acc
        exact ⟨')' :: t, by simpa using ht⟩
    by_cases h3 : c = '|'
    · subst h3
      by_cases hd : d = 0
      · subst hd
        rw [scanG_split0]
        exact ⟨[], by simpa using scanG_acc_mono cs 0 [] (acc ++ [cur]) cur (by simp)⟩
      · rw [scanG_splitS _ _ _ _ hd]
        obtain ⟨t, ht⟩ := ih d (cur ++ ['|']) acc
        exact ⟨'|' :: t, by simpa using ht⟩
    · rw [scanG_push _ _ _ _ h1 h2 h3]
      obtain ⟨t, ht⟩ := ih d (cur ++ [c]) acc
      exact ⟨c :: t, by simpa using ht⟩

theorem scanCAux_break (cs : List Char) (cur : List Char) :
    scanCAux (']' :: cs) cur = (cur, cs) := by
  simp [scanCAux]

theorem scanCAux_push {c : Char} (cs : List Char) (cur : List Char)
    (h : c ≠ ']') : scanCAux (c :: cs) cur = scanCAux cs (cur ++ [c]) := by
  simp [scanCAux, h]

theorem scanCAux_cur_prefix : ∀ (cs cur : List Char),
    ∃ t, (scanCAux cs cur).1 = cur ++ t := by
  intro cs
  induction cs with
  | nil => intro cur; exact ⟨[], by simp [scanCAux]⟩
  | cons c cs ih =>
    intro cur
    by_cases hc : c = ']'
    · subst hc; rw [scanCAux_break]; exact ⟨[], by simp⟩
    · rw [scanCAux_push _ _ hc]
      obtain ⟨t, ht⟩ := ih (cur ++ [c])
      exact ⟨c :: t, by simpa using ht⟩

/-- If the unscanned group text contains a bad escape, the scan produces
either an alternative text containing a bad escape or a tail containing
one. -/
theorem scanG_bad : ∀ (n : Nat) (cs : List Char) (d : Nat) (cur : List Char)
    (acc : List (List Char)), cs.length ≤ n → hasBadEscape cs = true →
    hasBadEscape cur = false →
    (∃ g ∈ (scanG cs d cur acc).1, hasBadEscape g = true) ∨
      hasBadEscape (scanG cs d cur acc).2 = true := by
  intro n
  induction n with
  | zero =>
    intro cs d cur acc hn hbad hclean
    cases cs with
    | nil => exact absurd hbad (by decide)
    | cons c cs => simp at hn
  | succ n ih =>
    intro cs d cur acc hn hbad hclean
    cases cs with
    | nil => exact absurd hbad (by decide)
    | cons c cs =>
      simp only [List.length_cons] at hn
      by_cases hc : c = '\\'
      · subst hc
        cases cs with
        | nil =>
          rw [scanG_push _ _ _ _ (by decide) (by decide) (by decide)]
          left
          exact ⟨cur ++ ['\\'], by simp [scanG], hasBad_trailing cur hclean⟩
        | cons nc cs2 =>
          simp only [List.length_cons] at hn
          rw [hasBad_bs_cons] at hbad
          by_cases hg : isGoodEscape nc
          · rw [if_pos hg] at hbad
            have hnc1 : nc ≠ '(' := fun he => by
              rw [he] at hg; exact absurd hg (by decide)
            have hnc2 : nc ≠ ')' := fun he => by
              rw [he] at hg; exact absurd hg (by decide)
            have hnc3 : nc ≠ '|' := fun he => by
              rw [he] at hg; exact absurd hg (by decide)
            rw [scanG_push _ _ _ _ (by decide) (by decide) (by decide),
              scanG_push _ _ _ _ hnc1 hnc2 hnc3]
            refine ih cs2 d (cur ++ ['\\'] ++ [nc]) acc (by omega) hbad ?_
            rw [List.append_assoc, hasBadEscape_append cur _ hclean]
            show hasBadEscape ('\\' :: nc :: []) = false
            rw [hasBad_bs_cons, if_pos hg]
            rfl
          · by_cases hn1 : nc = ')'
            · subst hn1
              by_cases hd : d = 0
              · subst hd
                rw [scanG_push _ _ _ _ (by decide) (by decide) (by decide),
                  scanG_close0]
                left
                exact ⟨cur ++ ['\\'], by simp, hasBad_trailing cur hclean⟩
              · rw [scanG_push _ _ _ _ (by decide) (by decide) (by decide),
                  scanG_closeS _ _ _ _ hd]
                left
                obtain ⟨t, ht⟩ := scanG_cur_lands cs2 (d - 1)
                  (cur ++ ['\\'] ++ [')']) acc
                refine ⟨_, ht, ?_⟩
                have := hasBad_stable_pair cur ')' hclean (by decide) t
                simpa using this
            by_cases hn2 : nc = '|'
            · subst hn2
              by_cases hd : d = 0
              · subst hd
                rw [scanG_push _ _ _ _ (by decide) (by decide) (by decide),
                  scanG_split0]
                left
                refine ⟨cur ++ ['\\'], ?_, hasBad_trailing cur hclean⟩
                exact scanG_acc_mono cs2 0 [] _ _ (by simp)
              · rw [scanG_push _ _ _ _ (by decide) (by decide) (by decide),
                  scanG_splitS _ _ _ _ hd]
                left
                obtain ⟨t, ht⟩ := scanG_cur_lands cs2 d (cur ++ ['\\'] ++ ['|']) acc
                refine ⟨_, ht, ?_⟩
                have := hasBad_stable_pair cur '|' hclean (by decide) t
                simpa using this
            by_cases hn3 : nc = '('
            · subst hn3
              rw [scanG_push _ _ _ _ (by decide) (by decide) (by decide),
                scanG_open]
              left
              obtain ⟨t, ht⟩ := scanG_cur_lands cs2 (d + 1)
                (cur ++ ['\\'] ++ ['(']) acc
              refine ⟨_, ht, ?_⟩
              have := hasBad_stable_pair cur '(' hclean (by decide) t
              simpa using this
            · rw [scanG_push _ _ _ _ (by decide) (by decide) (by decide),
                scanG_push _ _ _ _ hn3 hn1 hn2]
              left
              obtain ⟨t, ht⟩ := scanG_cur_lands cs2 d (cur ++ ['\\'] ++ [nc]) acc
              refine ⟨_, ht, ?_⟩
              have hb : isGoodEscape nc = false := by
                cases hgg : isGoodEscape nc
                · rfl
                · exact absurd hgg hg
              have := hasBad_stable_pair cur nc hclean hb t
              simpa using this
      · rw [hasBad_cons_notbs _ hc] at hbad
        by_cases h1 : c = '('
        · subst h1
          rw [scanG_open]
          refine ih cs (d + 1) (cur ++ ['(']) acc (by omega) hbad ?_
          rw [hasBadEscape_append cur _ hclean]
          rfl
        by_cases h2 : c = ')'
        · subst h2
          by_cases hd : d = 0
          · subst hd
            rw [scanG_close0]
            right
            exact hbad
          · rw [scanG_closeS _ _ _ _ hd]
            refine ih cs (d - 1) (cur ++ [')']) acc (by omega) hbad ?_
            rw [hasBadEscape_append cur _ hclean]
            rfl
        by_cases h3 : c = '|'
        · subst h3
          by_cases hd : d = 0
          · subst hd
            rw [scanG_split0]
            exact ih cs 0 [] (acc ++ [cur]) (by omega) hbad rfl
          · rw [scanG_splitS _ _ _ _ hd]
            refine ih cs d (cur ++ ['|']) acc (by omega) hbad ?_
            rw [hasBadEscape_append cur _ hclean]
            rfl
        · rw [scanG_push _ _ _ _ h1 h2 h3]
          refine ih cs d (cur ++ [c]) acc (by omega) hbad ?_
          rw [hasBadEscape_append cur _ hclean, hasBad_cons_notbs [] hc]
          rfl

/-- Same redistribution fact for the character-class scanner. -/
theorem scanCAux_bad : ∀ (n : Nat) (cs cur : List Char), cs.length ≤ n →
    hasBadEscape cs = true → hasBadEscape cur = false →
    hasBadEscape (scanCAux cs cur).1 = true ∨
      hasBadEscape (scanCAux cs cur).2 = true := by
  intro n
  induction n with
  | zero =>
    intro cs cur hn hbad hclean
    cases cs with
    | nil => exact absurd hbad (by decide)
    | cons c cs => simp at hn
  | succ n ih =>
    intro cs cur hn hbad hclean
    cases cs with
    | nil => exact absurd hbad (by decide)
    | cons c cs =>
      simp only [List.length_cons] at hn
      by_cases hc : c = '\\'
      · subst hc
        cases cs with
        | nil =>
          rw [scanCAux_push _ _ (by decide)]
          left
          show hasBadEscape (scanCAux [] (cur ++ ['\\'])).1 = true
          rw [show (scanCAux [] (cur ++ ['\\'])).1 = cur ++ ['\\'] from rfl]
          exact hasBad_trailing cur hclean
        | cons nc cs2 =>
          simp only [List.length_cons] at hn
          rw [hasBad_bs_cons] at hbad
          by_cases hg : isGoodEscape nc
          · rw [if_pos hg] at hbad
            have hnc : nc ≠ ']' := fun he => by
              rw [he] at hg; exact absurd hg (by decide)
            rw [scanCAux_push _ _ (by decide), scanCAux_push _ _ hnc]
            refine ih cs2 (cur ++ ['\\'] ++ [nc]) (by omega) hbad ?_
            rw [List.append_assoc, hasBadEscape_append cur _ hclean]
            show hasBadEscape ('\\' :: nc :: []) = false
            rw [hasBad_bs_cons, if_pos hg]
            rfl
          · by_cases hn1 : nc = ']'
            · subst hn1
              rw [scanCAux_push _ _ (by decide), scanCAux_break]
              left
              exact hasBad_trailing cur hclean
            · rw [scanCAux_push _ _ (by decide), scanCAux_push _ _ hn1]
              left
              obtain ⟨t, ht⟩ := scanCAux_cur_prefix cs2 (cur ++ ['\\'] ++ [nc])
              rw [ht]
              have hb : isGoodEscape nc = false := by
                cases hgg : isGoodEscape nc
                · rfl
                · exact absurd hgg hg
              have := hasBad_stable_pair cur nc hclean hb t
              simpa using this
      · rw [hasBad_cons_notbs _ hc] at hbad
        by_cases h1 : c = ']'
        · subst h1
          rw [scanCAux_break]
          right
          exact hbad
        · rw [scanCAux_push _ _ h1]
          refine ih cs (cur ++ [c]) (by omega) hbad ?_
          rw [hasBadEscape_append cur _ hclean, hasBad_cons_notbs [] hc]
          rfl

/-- A member of a list of group texts is no longer than the total length. -/
theorem mem_sumLen_le (g : List Char) : ∀ gs : List (List Char), g ∈ gs →
    g.length ≤ sumLen gs := by
  intro gs
  induction gs with
  | nil => intro hg; exact absurd hg (List.not_mem_nil g)
  | cons h t ih =>
    intro hg
    rcases List.mem_cons.mp hg with he | hm
    · subst he; simp
    · have := ih hm
      simp
      omega

/-- If some member of the group list fails to compile at every counter, the
whole list compilation crashes. -/
theorem parse_list_crash : ∀ (gs : List (List Char)) (g : List Char), g ∈ gs →
    (∀ ctr2 : Nat, parse_pattern g ctr2 = .crash) →
    ∀ ctr : Nat, parse_list gs ctr = .crash := by
  intro gs
  induction gs with
  | nil => intro g hg; exact absurd hg (List.not_mem_nil g)
  | cons h t ih =>
    intro g hg hcrash ctr
    rw [parse_list_cons]
    rcases List.mem_cons.mp hg with he | hm
    · subst he
      rw [hcrash ctr]
      rfl
    · cases hp : parse_pattern h ctr with
      | ok pr =>
        obtain ⟨sub, c2⟩ := pr
        rw [Res.bind_ok]
        dsimp only
        rw [ih g hm hcrash c2]
        rfl
      | crash => rfl
      | fuelOut => exact absurd hp (parse_pattern_ne_fuelOut h ctr)

/-- Main compilation-abort theorem: any pattern containing an unrecognised
escape sequence crashes the compiler (the `todo!()` arms), at every value of
the group-id counter. -/
theorem parse_bad_crash : ∀ (n : Nat) (p : List Char), p.length ≤ n →
    hasBadEscape p = true → ∀ ctr : Nat, parse_pattern p ctr = .crash := by
  intro n
  induction n with
  | zero =>
    intro p hn hbad ctr
    cases p with
    | nil => exact absurd hbad (by decide)
    | cons c cs => simp at hn
  | succ n ih =>
    intro p hn hbad ctr
    cases p with
    | nil => exact absurd hbad (by decide)
    | cons c cs =>
      simp only [List.length_cons] at hn
      have hcs : cs.length ≤ n := by omega
      by_cases hskip : c = '+' ∨ c = '*' ∨ c = '?'
      · rw [parse_pattern_skip c cs ctr hskip]
        have hcne : c ≠ '\\' := by rcases hskip with h | h | h <;> subst h <;> decide
        rw [hasBad_cons_notbs cs hcne] at hbad
        exact ih cs hcs hbad ctr
      push_neg at hskip
      obtain ⟨hq1, hq2, hq3⟩ := hskip
      by_cases h4 : c = '.'
      · subst h4
        rw [parse_pattern_dot]
        rw [hasBad_cons_notbs cs (by decide)] at hbad
        rw [ih cs hcs hbad ctr]
        rfl
      by_cases h5 : c = '^'
      · subst h5
        rw [parse_pattern_caret]
        rw [hasBad_cons_notbs cs (by decide)] at hbad
        rw [ih cs hcs hbad ctr]
        rfl
      by_cases h6 : c = '$'
      · subst h6
        rw [parse_pattern_dollar]
        rw [hasBad_cons_notbs cs (by decide)] at hbad
        rw [ih cs hcs hbad ctr]
        rfl
      by_cases h7 : c = '('
      · subst h7
        rw [parse_pattern_group]
        rw [hasBad_cons_notbs cs (by decide)] at hbad
        rcases scanG_bad cs.length cs 0 [] [] (le_refl _) hbad rfl with
          ⟨g, hg, hgbad⟩ | htail
        · have hsz := scanG_size cs 0 [] []
          have hglen : g.length ≤ sumLen (scanG cs 0 [] []).1 :=
            mem_sumLen_le g _ hg
          have hpos : 0 < (scanG cs 0 [] []).1.length :=
            List.length_pos.mpr (List.ne_nil_of_mem hg)
          have hgn : g.length ≤ n := by
            simp only [sumLen_nil, List.length_nil] at hsz
            omega
          rw [parse_list_crash _ g hg (fun c2 => ih g hgn hgbad c2) (ctr + 1)]
          rfl
        · have htl : (scanG cs 0 [] []).2.length ≤ n :=
            le_trans (scanG_tail_le cs 0 [] []) hcs
          cases hpl : parse_list (scanG cs 0 [] []).1 (ctr + 1) with
          | ok pr =>
            obtain ⟨gsubs, c2⟩ := pr
            rw [Res.bind_ok]
            dsimp only
            rw [ih _ htl htail c2]
            rfl
          | crash => rfl
          | fuelOut => exact absurd hpl (parse_list_ne_fuelOut _ _)
      by_cases h8 : c = '['
      · subst h8
        cases cs with
        | nil => exact parse_pattern_class_nil ctr
        | cons nc cs2 =>
          simp only [List.length_cons] at hcs
          rw [hasBad_cons_notbs _ (by decide)] at hbad
          by_cases hcaret : nc = '^'
          · subst hcaret
            rw [parse_pattern_class_neg]
            rw [hasBad_cons_notbs cs2 (by decide)] at hbad
            rcases scanCAux_bad cs2.length cs2 [] (le_refl _) hbad rfl with
              hcont | htail
            · have hclen : (scanCAux cs2 []).1.length ≤ n :=
                le_trans (scanCAux_contents_le cs2 []) (by simp; omega)
              rw [ih _ hclen hcont ctr]
              rfl
            · have htl : (scanCAux cs2 []).2.length ≤ n :=
                le_trans (scanCAux_tail_le cs2 []) (by omega)
              cases hpc : parse_pattern (scanCAux cs2 []).1 ctr with
              | ok pr =>
                obtain ⟨v, c2⟩ := pr
                rw [Res.bind_ok]
                dsimp only
                rw [ih _ htl htail c2]
                rfl
              | crash => rfl
              | fuelOut => exact absurd hpc (parse_pattern_ne_fuelOut _ _)
          · rw [parse_pattern_class_pos nc cs2 ctr hcaret]
            by_cases hbs : nc = '\\'
            · subst hbs
              cases cs2 with
              | nil =>
                rw [show (scanCAux [] ['\\']).1 = ['\\'] from rfl,
                  parse_pattern_esc_nil]
                rfl
              | cons m cs3 =>
                rw [hasBad_bs_cons] at hbad
                simp only [List.length_cons] at hcs
                by_cases hm : m = ']'
                · subst hm
                  rw [scanCAux_break]
                  dsimp only
                  rw [parse_pattern_esc_nil]
                  rfl
                · rw [scanCAux_push _ _ hm]
                  by_cases hgm : isGoodEscape m
                  · rw [if_pos hgm] at hbad
                    have hclean : hasBadEscape (['\\'] ++ [m]) = false := by
                      show hasBadEscape ('\\' :: m :: []) = false
                      rw [hasBad_bs_cons, if_pos hgm]
                      rfl
                    rcases scanCAux_bad cs3.length cs3 (['\\'] ++ [m])
                        (le_refl _) hbad hclean with hcont | htail
                    · have hclen : (scanCAux cs3 (['\\'] ++ [m])).1.length ≤ n :=
                        le_trans (scanCAux_contents_le cs3 _) (by simp; omega)
                      rw [ih _ hclen hcont ctr]
                      rfl
                    · have htl : (scanCAux cs3 (['\\'] ++ [m])).2.length ≤ n :=
                        le_trans (scanCAux_tail_le cs3 _) (by omega)
                      cases hpc : parse_pattern (scanCAux cs3 (['\\'] ++ [m])).1 ctr with
                      | ok pr =>
                        obtain ⟨v, c2⟩ := pr
                        rw [Res.bind_ok]
                        dsimp only
                        rw [ih _ htl htail c2]
                        rfl
                      | crash => rfl
                      | fuelOut => exact absurd hpc (parse_pattern_ne_fuelOut _ _)
                  · obtain ⟨t, ht⟩ := scanCAux_cur_prefix cs3 (['\\'] ++ [m])
                    have hb : isGoodEscape m = false := by
                      cases hq : isGoodEscape m
                      · rfl
                      · exact absurd hq hgm
                    have hcontbad :
                        hasBadEscape (scanCAux cs3 (['\\'] ++ [m])).1 = true := by
                      rw [ht]
                      have := hasBad_stable_pair [] m rfl hb t
                      simpa using this
                    have hclen : (scanCAux cs3 (['\\'] ++ [m])).1.length ≤ n :=
                      le_trans (scanCAux_contents_le cs3 _) (by simp; omega)
                    rw [ih _ hclen hcontbad ctr]
                    rfl
            · rw [hasBad_cons_notbs cs2 hbs] at hbad
              have hclean : hasBadEscape [nc] = false := by
                rw [hasBad_cons_notbs [] hbs]
                rfl
              rcases scanCAux_bad cs2.length cs2 [nc] (le_refl _) hbad hclean with
                hcont | htail
              · have hclen : (scanCAux cs2 [nc]).1.length ≤ n :=
                  le_trans (scanCAux_contents_le cs2 _) (by simp; omega)
                rw [ih _ hclen hcont ctr]
                rfl
              · have htl : (scanCAux cs2 [nc]).2.length ≤ n :=
                  le_trans (scanCAux_tail_le cs2 _) (by omega)
                cases hpc : parse_pattern (scanCAux cs2 [nc]).1 ctr with
                | ok pr =>
                  obtain ⟨v, c2⟩ := pr
                  rw [Res.bind_ok]
                  dsimp only
                  rw [ih _ htl htail c2]
                  rfl
                | crash => rfl
                | fuelOut => exact absurd hpc (parse_pattern_ne_fuelOut _ _)
      by_cases h9 : c = '\\'
      · subst h9
        cases cs with
        | nil => exact parse_pattern_esc_nil ctr
        | cons nc cs2 =>
          rw [hasBad_bs_cons] at hbad
          simp only [List.length_cons] at hcs
          have hcs2 : cs2.length ≤ n := by omega
          by_cases g1 : nc = '\\'
          · subst g1
            rw [if_pos (by decide)] at hbad
            rw [parse_pattern_esc_bslash, ih cs2 hcs2 hbad ctr]
            rfl
          by_cases g2 : nc = 'd'
          · subst g2
            rw [if_pos (by decide)] at hbad
            rw [parse_pattern_esc_d, ih cs2 hcs2 hbad ctr]
            rfl
          by_cases g3 : nc = 'w'
          · subst g3
            rw [if_pos (by decide)] at hbad
            rw [parse_pattern_esc_w, ih cs2 hcs2 hbad ctr]
            rfl
          by_cases g4 : nc.isDigit
          · rw [if_pos (by simp [isGoodEscape, g4])] at hbad
            rw [parse_pattern_esc_digit nc cs2 ctr g1 g2 g3 g4,
              ih cs2 hcs2 hbad ctr]
            rfl
          · exact parse_pattern_esc_bad nc cs2 ctr g1 g2 g3
              (Bool.eq_false_iff.mpr g4)
      · rw [parse_pattern_lit c cs ctr hq1 hq2 hq3 h4 h5 h6 h7 h8 h9]
        rw [hasBad_cons_notbs cs h9] at hbad
        rw [ih cs hcs hbad ctr]
        rfl

/-- C9: for every pattern containing an escape sequence the compiler does not
recognise (a backslash followed by anything other than a backslash, `d`, `w`
or a decimal digit, or a trailing lone backslash), compilation aborts the
process (the `todo!()` panic, modelled as a crash) regardless of the current
group-id counter; the offending character is never silently dropped and the
failure is never deferred to match time. -/
theorem C9_bad_escape_compile_crash (p : List Char) (ctr : Nat)
    (h : hasBadEscape p = true) : parse_pattern p ctr = .crash :=
  parse_bad_crash p.length p (le_refl _) h ctr

/-- Witness for C9: the patterns `a\x` (bad escape char), `[a\x]` (bad escape
inside a character class), `(a|\x)` (bad escape inside a group) and `ab\`
(trailing backslash) all contain bad escapes, and all crash the compiler. -/
theorem C9_witness :
    (hasBadEscape ('a' :: '\\' :: 'x' :: []) = true ∧
      parse_pattern ('a' :: '\\' :: 'x' :: []) 0 = .crash) ∧
    (hasBadEscape ('[' :: 'a' :: '\\' :: 'x' :: ']' :: []) = true ∧
      parse_pattern ('[' :: 'a' :: '\\' :: 'x' :: ']' :: []) 0 = .crash) ∧
    (hasBadEscape ('(' :: 'a' :: '|' :: '\\' :: 'x' :: ')' :: []) = true ∧
      parse_pattern ('(' :: 'a' :: '|' :: '\\' :: 'x' :: ')' :: []) 0 = .crash) ∧
    (hasBadEscape ('a' :: 'b' :: '\\' :: []) = true ∧
      parse_pattern ('a' :: 'b' :: '\\' :: []) 0 = .crash) :=
  ⟨⟨by decide, C9_bad_escape_compile_crash _ 0 (by decide)⟩,
   ⟨by decide, C9_bad_escape_compile_crash _ 0 (by decide)⟩,
   ⟨by decide, C9_bad_escape_compile_crash _ 0 (by decide)⟩,
   ⟨by decide, C9_bad_escape_compile_crash _ 0 (by decide)⟩⟩

/-! ### Claim C4: repeatability of successive top-level matches -/

mutual
/-- Structural similarity of compiled nodes: equal up to the group ids
stored in `AlternateGroups` (which come from the process-global counter and
therefore differ between successive compilations of the same pattern). -/
inductive SimK : PatternKind → PatternKind → Prop where
  | lit (c : Char) : SimK (.Literal c) (.Literal c)
  | alnum : SimK .AlphaNumeric .AlphaNumeric
  | digit : SimK .Digit .Digit
  | inputStart : SimK .InputStart .InputStart
  | inputEnd : SimK .InputEnd .InputEnd
  | any : SimK .Any .Any
  | alts {v v' : List SubPattern} : SimL v v' →
      SimK (.Alternatives v) (.Alternatives v')
  | notAlts {v v' : List SubPattern} : SimL v v' →
      SimK (.NotAlternatives v) (.NotAlternatives v')
  | groups {gs gs' : List (List SubPattern)} (id id' : Nat) : SimG gs gs' →
      SimK (.AlternateGroups id gs) (.AlternateGroups id' gs')
  | backref (i : Nat) : SimK (.BackRef i) (.BackRef i)

/-- Similarity of nodes with their modifier. -/
inductive SimS : SubPattern → SubPattern → Prop where
  | mk {k k' : PatternKind} (m : Option Modifier) : SimK k k' →
      SimS (.mk k m) (.mk k' m)

/-- Similarity of node sequences. -/
inductive SimL : List SubPattern → List SubPattern → Prop where
  | nil : SimL [] []
  | cons {a b : SubPattern} {l l' : List SubPattern} : SimS a b → SimL l l' →
      SimL (a :: l) (b :: l')

/-- Similarity of group alternative lists. -/
inductive SimG : List (List SubPattern) → List (List SubPattern) → Prop where
  | nil : SimG [] []
  | cons {a b : List SubPattern} {l l' : List (List SubPattern)} : SimL a b →
      SimG l l' → SimG (a :: l) (b :: l')
end

mutual
/-- The compiled node contains no `BackRef` node anywhere. -/
def noBackRefK : PatternKind → Bool
  | .Alternatives v => noBackRefL v
  | .NotAlternatives v => noBackRefL v
  | .AlternateGroups _ gs => noBackRefG gs
  | .BackRef _ => false
  | _ => true

/-- No `BackRef` in a node. -/
def noBackRefS : SubPattern → Bool
  | .mk k _ => noBackRefK k

/-- No `BackRef` in a node sequence. -/
def noBackRefL : List SubPattern → Bool
  | [] => true
  | sp :: sps => noBackRefS sp && noBackRefL sps

/-- No `BackRef` in a list of group alternatives. -/
def noBackRefG : List (List SubPattern) → Bool
  | [] => true
  | g :: gs => noBackRefL g && noBackRefG gs
end

theorem noBackRefL_cons (sp : SubPattern) (sps : List SubPattern) :
    noBackRefL (sp :: sps) = (noBackRefS sp && noBackRefL sps) := rfl

theorem noBackRefG_cons (g : List SubPattern) (gs : List (List SubPattern)) :
    noBackRefG (g :: gs) = (noBackRefL g && noBackRefG gs) := rfl

theorem SimK_isAltGroups {k k' : PatternKind} (h : SimK k k') :
    isAltGroups k = isAltGroups k' := by
  cases h <;> rfl

theorem SimK_isInputStart {k k' : PatternKind} (h : SimK k k') :
    kindIsInputStart k = kindIsInputStart k' := by
  cases h <;> rfl

theorem SimS_isEligible {a b : SubPattern} (h : SimS a b) :
    isEligible a = isEligible b := by
  cases h with
  | mk m hk =>
    unfold isEligible
    cases m with
    | none => exact SimK_isAltGroups hk
    | some mod => cases mod <;> first | rfl | exact SimK_isAltGroups hk

theorem SimS_kindIsInputStart {a b : SubPattern} (h : SimS a b) :
    kindIsInputStart a.kind = kindIsInputStart b.kind := by
  cases h with
  | mk m hk => exact SimK_isInputStart hk

/-- Result relation for the state-threaded matcher: same constructor and
same value component, with no constraint on the output states. -/
def valRel {α : Type} : Res (α × GState) → Res (α × GState) → Prop
  | .ok (v, _), .ok (w, _) => v = w
  | .crash, .crash => True
  | .fuelOut, .fuelOut => True
  | _, _ => False

theorem valRel_bind {α β : Type} {r r' : Res (α × GState)}
    {g h : α × GState → Res (β × GState)} (hr : valRel r r')
    (hk : ∀ (v : α) (σ σ' : GState), valRel (g (v, σ)) (h (v, σ'))) :
    valRel (r.bind g) (r'.bind h) := by
  cases r with
  | ok p =>
    obtain ⟨v, σ⟩ := p
    cases r' with
    | ok p' =>
      obtain ⟨w, σ'⟩ := p'
      have hv : v = w := hr
      subst hv
      exact hk v σ σ'
    | crash => exact hr.elim
    | fuelOut => exact hr.elim
  | crash =>
    cases r' with
    | ok p' => exact hr.elim
    | crash => trivial
    | fuelOut => exact hr.elim
  | fuelOut =>
    cases r' with
    | ok p' => exact hr.elim
    | crash => exact hr.elim
    | fuelOut => trivial

theorem sliceFrom_ne_fuelOut (s : List Char) (k : Nat) :
    sliceFrom s k ≠ .fuelOut := by
  unfold sliceFrom
  split_ifs <;> intro h <;> exact Res.noConfusion h

theorem sliceTo_ne_fuelOut (s : List Char) (k : Nat) :
    sliceTo s k ≠ .fuelOut := by
  unfold sliceTo
  split_ifs <;> intro h <;> exact Res.noConfusion h

/-- Relation between `prev` arguments of `match_loop`: similar previous node
with identical pre-match text. -/
def SimPrev : Option (SubPattern × List Char) → Option (SubPattern × List Char) →
    Prop
  | none, none => True
  | some (a, ra), some (b, rb) => SimS a b ∧ ra = rb
  | _, _ => False

/-- Result relation for the compiler at two counter values: same constructor
and value components related by `R` (the updated counters are
unconstrained). -/
def SimRes {α : Type} (R : α → α → Prop) : Res (α × Nat) → Res (α × Nat) → Prop
  | .ok (a, _), .ok (b, _) => R a b
  | .crash, .crash => True
  | .fuelOut, .fuelOut => True
  | _, _ => False

theorem SimRes_bind {α β : Type} {R : α → α → Prop} {S : β → β → Prop}
    {r r' : Res (α × Nat)} {g h : α × Nat → Res (β × Nat)}
    (hr : SimRes R r r')
    (hk : ∀ (a b : α) (c c' : Nat), R a b → SimRes S (g (a, c)) (h (b, c'))) :
    SimRes S (r.bind g) (r'.bind h) := by
  cases r with
  | ok p =>
    obtain ⟨a, c⟩ := p
    cases r' with
    | ok p' =>
      obtain ⟨b, c'⟩ := p'
      exact hk a b c c' hr
    | crash => exact hr.elim
    | fuelOut => exact hr.elim
  | crash =>
    cases r' with
    | ok p' => exact hr.elim
    | crash => trivial
    | fuelOut => exact hr.elim
  | fuelOut =>
    cases r' with
    | ok p' => exact hr.elim
    | crash => exact hr.elim
    | fuelOut => trivial

/-- Compiling the same pattern text at two different counter values yields
results with the same constructor, and on success similar node lists (equal
up to group ids). -/
theorem parse_sim : ∀ n : Nat,
    (∀ (p : List Char) (c c' : Nat), 5 * p.length + 5 ≤ n →
      SimRes SimL (parse_pattern p c) (parse_pattern p c')) ∧
    (∀ (gs : List (List Char)) (c c' : Nat),
      5 * sumLen gs + 5 * gs.length + 1 ≤ n →
      SimRes SimG (parse_list gs c) (parse_list gs c')) := by
  intro n
  induction n with
  | zero => refine ⟨?_, ?_⟩ <;> intro _ _ _ h <;> omega
  | succ n ih =>
    obtain ⟨ihP, ihL⟩ := ih
    refine ⟨?_, ?_⟩
    · rintro p c c' hn
      cases p with
      | nil =>
        rw [parse_pattern_nil, parse_pattern_nil]
        exact SimL.nil
      | cons x cs =>
        simp only [List.length_cons] at hn
        by_cases hplus : x = '+' ∨ x = '*' ∨ x = '?'
        · rw [parse_pattern_skip _ _ _ hplus, parse_pattern_skip _ _ _ hplus]
          exact ihP cs c c' (by omega)
        by_cases hdot : x = '.'
        · subst hdot
          rw [parse_pattern_dot, parse_pattern_dot]
          refine SimRes_bind (ihP cs c c' (by omega)) ?_
          rintro sps sps' c2 c2' hrel
          dsimp only
          exact SimL.cons (SimS.mk _ SimK.any) hrel
        by_cases hcaret : x = '^'
        · subst hcaret
          rw [parse_pattern_caret, parse_pattern_caret]
          refine SimRes_bind (ihP cs c c' (by omega)) ?_
          rintro sps sps' c2 c2' hrel
          dsimp only
          exact SimL.cons (SimS.mk _ SimK.inputStart) hrel
        by_cases hdollar : x = '$'
        · subst hdollar
          rw [parse_pattern_dollar, parse_pattern_dollar]
          refine SimRes_bind (ihP cs c c' (by omega)) ?_
          rintro sps sps' c2 c2' hrel
          dsimp only
          exact SimL.cons (SimS.mk _ SimK.inputEnd) hrel
        by_cases hgroup : x = '('
        · subst hgroup
          rw [parse_pattern_group, parse_pattern_group]
          have hsg := scanG_size cs 0 [] []
          have hst := scanG_tail_le cs 0 [] []
          simp only [sumLen_nil, List.length_nil] at hsg
          refine SimRes_bind (ihL _ (c + 1) (c' + 1) (by omega)) ?_
          rintro gsubs gsubs' c2 c2' hg
          dsimp only
          refine SimRes_bind (ihP _ c2 c2' (by omega)) ?_
          rintro rest rest' c3 c3' ht
          dsimp only
          exact SimL.cons (SimS.mk _ (SimK.groups c c' hg)) ht
        by_cases hclass : x = '['
        · subst hclass
          cases cs with
          | nil =>
            rw [parse_pattern_class_nil, parse_pattern_class_nil]
            trivial
          | cons nc cs2 =>
            simp only [List.length_cons] at hn
            have hc := scanCAux_contents_le cs2 []
            have ht := scanCAux_tail_le cs2 []
            have hcn := scanCAux_contents_le cs2 [nc]
            have htn := scanCAux_tail_le cs2 [nc]
            simp only [List.length_nil, List.length_cons] at hc hcn
            by_cases hneg : nc = '^'
            · subst hneg
              rw [parse_pattern_class_neg, parse_pattern_class_neg]
              refine SimRes_bind (ihP _ c c' (by omega)) ?_
              rintro v v' c2 c2' hv
              dsimp only
              refine SimRes_bind (ihP _ c2 c2' (by omega)) ?_
              rintro rest rest' c3 c3' hr
              dsimp only
              exact SimL.cons (SimS.mk _ (SimK.notAlts hv)) hr
            · rw [parse_pattern_class_pos _ _ _ hneg,
                parse_pattern_class_pos _ _ _ hneg]
              refine SimRes_bind (ihP _ c c' (by omega)) ?_
              rintro v v' c2 c2' hv
              dsimp only
              refine SimRes_bind (ihP _ c2 c2' (by omega)) ?_
              rintro rest rest' c3 c3' hr
              dsimp only
              exact SimL.cons (SimS.mk _ (SimK.alts hv)) hr
        by_cases hesc : x = '\\'
        · subst hesc
          cases cs with
          | nil =>
            rw [parse_pattern_esc_nil, parse_pattern_esc_nil]
            trivial
          | cons nc cs2 =>
            simp only [List.length_cons] at hn
            by_cases h1 : nc = '\\'
            · subst h1
              rw [parse_pattern_esc_bslash, parse_pattern_esc_bslash]
              refine SimRes_bind (ihP cs2 c c' (by omega)) ?_
              rintro sps sps' c2 c2' hrel
              dsimp only
              exact SimL.cons (SimS.mk _ (SimK.lit '\\')) hrel
            by_cases h2 : nc = 'd'
            · subst h2
              rw [parse_pattern_esc_d, parse_pattern_esc_d]
              refine SimRes_bind (ihP cs2 c c' (by omega)) ?_
              rintro sps sps' c2 c2' hrel
              dsimp only
              exact SimL.cons (SimS.mk _ SimK.digit) hrel
            by_cases h3 : nc = 'w'
            · subst h3
              rw [parse_pattern_esc_w, parse_pattern_esc_w]
              refine SimRes_bind (ihP cs2 c c' (by omega)) ?_
              rintro sps sps' c2 c2' hrel
              dsimp only
              exact SimL.cons (SimS.mk _ SimK.alnum) hrel
            by_cases h4 : nc.isDigit = true
            · rw [parse_pattern_esc_digit _ _ _ h1 h2 h3 h4,
                parse_pattern_esc_digit _ _ _ h1 h2 h3 h4]
              refine SimRes_bind (ihP cs2 c c' (by omega)) ?_
              rintro sps sps' c2 c2' hrel
              dsimp only
              exact SimL.cons (SimS.mk _ (SimK.backref _)) hrel
            · rw [parse_pattern_esc_bad _ _ _ h1 h2 h3 (by simpa using h4),
                parse_pattern_esc_bad _ _ _ h1 h2 h3 (by simpa using h4)]
              trivial
        · have hng : ¬(x = '+') := fun h => hplus (Or.inl h)
          have hng2 : ¬(x = '*') := fun h => hplus (Or.inr (Or.inl h))
          have hng3 : ¬(x = '?') := fun h => hplus (Or.inr (Or.inr h))
          rw [parse_pattern_lit _ _ _ hng hng2 hng3 hdot hcaret hdollar hgroup
            hclass hesc,
            parse_pattern_lit _ _ _ hng hng2 hng3 hdot hcaret hdollar hgroup
            hclass hesc]
          refine SimRes_bind (ihP cs c c' (by omega)) ?_
          rintro sps sps' c2 c2' hrel
          dsimp only
          exact SimL.cons (SimS.mk _ (SimK.lit x)) hrel
    · rintro gs c c' hn
      cases gs with
      | nil =>
        rw [parse_list_nil, parse_list_nil]
        exact SimG.nil
      | cons g gs =>
        simp only [sumLen_cons, List.length_cons] at hn
        rw [parse_list_cons, parse_list_cons]
        refine SimRes_bind (ihP g c c' (by omega)) ?_
        rintro sub sub' c2 c2' hs
        dsimp only
        refine SimRes_bind (ihL gs c2 c2' (by omega)) ?_
        rintro subs subs' c3 c3' hl
        dsimp only
        exact SimG.cons hs hl

/-- Counter-independent form of the compiler similarity. -/
theorem parse_sim_pattern (p : List Char) (c c' : Nat) :
    SimRes SimL (parse_pattern p c) (parse_pattern p c') :=
  (parse_sim (5 * p.length + 5)).1 p c c' (le_refl _)

set_option maxHeartbeats 1000000 in
/-- Master value-independence theorem: on backreference-free node structures,
every matcher entry point computes the same value (match result) from any
two global states and any two similar (id-shifted) compilations; only the
output states may differ.  Joint induction on fuel over the whole mutual
block. -/
theorem match_sim : ∀ f : Nat,
    (∀ (rem : List Char) (k k' : PatternKind) (σ σ' : GState),
      noBackRefK k = true → SimK k k' →
      valRel (match_subpattern_kind f rem k σ) (match_subpattern_kind f rem k' σ')) ∧
    (∀ (rem : List Char) (v v' : List SubPattern) (σ σ' : GState),
      noBackRefL v = true → SimL v v' →
      valRel (alternatives_loop f rem v σ) (alternatives_loop f rem v' σ')) ∧
    (∀ (rem : List Char) (v v' : List SubPattern) (σ σ' : GState),
      noBackRefL v = true → SimL v v' →
      valRel (not_alternatives_loop f rem v σ) (not_alternatives_loop f rem v' σ')) ∧
    (∀ (rem : List Char) (id id' : Nat) (gs gs' : List (List SubPattern))
      (σ σ' : GState), noBackRefG gs = true → SimG gs gs' →
      valRel (groups_loop f rem id gs σ) (groups_loop f rem id' gs' σ')) ∧
    (∀ (rem : List Char) (k k' : PatternKind) (σ σ' : GState),
      noBackRefK k = true → SimK k k' →
      valRel (star_loop f rem k σ) (star_loop f rem k' σ')) ∧
    (∀ (rem : List Char) (sp sp' : SubPattern) (σ σ' : GState),
      noBackRefS sp = true → SimS sp sp' →
      valRel (match_subpattern f rem sp σ) (match_subpattern f rem sp' σ')) ∧
    (∀ (rem : List Char) (sps sps' : List SubPattern) (σ σ' : GState),
      noBackRefL sps = true → SimL sps sps' →
      valRel (match_all_subpatterns f rem sps σ) (match_all_subpatterns f rem sps' σ')) ∧
    (∀ (suffix : List Char) (n : Nat) (sp sp' : SubPattern) (σ σ' : GState),
      noBackRefS sp = true → SimS sp sp' →
      valRel (find_match_start f suffix n sp σ) (find_match_start f suffix n sp' σ')) ∧
    (∀ (remaining : List Char) (prev prev' : Option (SubPattern × List Char))
      (sps sps' : List SubPattern) (σ σ' : GState),
      noBackRefL sps = true → SimL sps sps' → SimPrev prev prev' →
      valRel (match_loop f remaining prev sps σ) (match_loop f remaining prev' sps' σ')) ∧
    (∀ (input pat : List Char) (force : Bool) (σ σ' : GState),
      (∀ (sps : List SubPattern) (c2 : Nat),
        parse_pattern pat σ.counter = .ok (sps, c2) → noBackRefL sps = true) →
      valRel (match_pattern f input pat force σ) (match_pattern f input pat force σ')) := by
  intro f
  induction f with
  | zero => refine ⟨?_, ?_, ?_, ?_, ?_, ?_, ?_, ?_, ?_, ?_⟩ <;> intros <;> trivial
  | succ f ih =>
    obtain ⟨ihK, ihA, ihN, ihG, ihSt, ihS, ihM, ihF, ihL, ihP⟩ := ih
    refine ⟨?_, ?_, ?_, ?_, ?_, ?_, ?_, ?_, ?_, ?_⟩
    · rintro rem k k' σ σ' hnb hsim
      cases hsim with
      | lit ch => exact rfl
      | alnum => exact rfl
      | digit => exact rfl
      | inputStart => trivial
      | inputEnd => exact rfl
      | any => exact rfl
      | alts hv =>
        rw [msk_alts, msk_alts]
        exact ihA rem _ _ σ σ' hnb hv
      | notAlts hv =>
        rw [msk_notAlts, msk_notAlts]
        exact ihN rem _ _ σ σ' hnb hv
      | groups id id' hg =>
        rw [msk_groups, msk_groups]
        exact ihG rem id id' _ _ σ σ' hnb hg
      | backref i =>
        rw [show noBackRefK (.BackRef i) = false from rfl] at hnb
        exact Bool.noConfusion hnb
    · rintro rem v v' σ σ' hnb hsim
      cases hsim with
      | nil => exact rfl
      | cons hs hl =>
        rename_i a b l l'
        rw [alternatives_loop_cons, alternatives_loop_cons]
        rw [noBackRefL_cons, Bool.and_eq_true] at hnb
        refine valRel_bind (ihS rem a b σ σ' hnb.1 hs) ?_
        rintro r σ2 σ2'
        dsimp only
        cases r with
        | some off => exact rfl
        | none => exact ihA rem l l' σ2 σ2' hnb.2 hl
    · rintro rem v v' σ σ' hnb hsim
      cases hsim with
      | nil => exact rfl
      | cons hs hl =>
        rename_i a b l l'
        rw [not_alternatives_loop_cons, not_alternatives_loop_cons]
        rw [noBackRefL_cons, Bool.and_eq_true] at hnb
        refine valRel_bind (ihS rem a b σ σ' hnb.1 hs) ?_
        rintro r σ2 σ2'
        dsimp only
        cases r with
        | some off => exact rfl
        | none => exact ihN rem l l' σ2 σ2' hnb.2 hl
    · rintro rem id id' gs gs' σ σ' hnb hsim
      cases hsim with
      | nil => exact rfl
      | cons hg hrest =>
        rename_i a b l l'
        rw [groups_loop_cons, groups_loop_cons]
        rw [noBackRefG_cons, Bool.and_eq_true] at hnb
        refine valRel_bind (ihM rem a b σ σ' hnb.1 hg) ?_
        rintro r σ2 σ2'
        dsimp only
        cases r with
        | some off =>
          try dsimp only
          cases hst : sliceTo rem off with
          | ok cap => exact rfl
          | crash => trivial
          | fuelOut => exact absurd hst (sliceTo_ne_fuelOut _ _)
        | none => exact ihG rem id id' l l' σ2 σ2' hnb.2 hrest
    · rintro rem k k' σ σ' hnb hsim
      rw [star_loop_succ, star_loop_succ]
      refine valRel_bind (ihK rem k k' σ σ' hnb hsim) ?_
      rintro r σ2 σ2'
      dsimp only
      cases r with
      | none => exact rfl
      | some off =>
        try dsimp only
        cases hsf : sliceFrom rem off with
        | ok rem2 =>
          rw [Res.bind_ok, Res.bind_ok]
          by_cases he : rem2.isEmpty
          · rw [if_pos he, if_pos he]
            exact rfl
          · rw [if_neg he, if_neg he]
            exact ihSt rem2 k k' σ2 σ2' hnb hsim
        | crash => trivial
        | fuelOut => exact absurd hsf (sliceFrom_ne_fuelOut _ _)
    · rintro rem sp sp' σ σ' hnb hsim
      cases hsim with
      | mk m hk =>
        rename_i k k'
        cases m with
        | none =>
          rw [match_subpattern_plain, match_subpattern_plain]
          exact ihK rem k k' σ σ' hnb hk
        | some mod =>
          cases mod with
          | ZeroOrOne =>
            rw [match_subpattern_zeroOrOne, match_subpattern_zeroOrOne]
            refine valRel_bind (ihK rem k k' σ σ' hnb hk) ?_
            rintro r σ2 σ2'
            dsimp only
            cases r with
            | some off => exact rfl
            | none => exact rfl
          | ZeroOrMore =>
            rw [match_subpattern_star f rem k _ σ (Or.inl rfl),
              match_subpattern_star f rem k' _ σ' (Or.inl rfl)]
            refine valRel_bind (ihSt rem k k' σ σ' hnb hk) ?_
            rintro still σ2 σ2'
            dsimp only
            rw [if_neg (by simp), if_neg (by simp)]
            exact rfl
          | OneOrMore =>
            rw [match_subpattern_star f rem k _ σ (Or.inr rfl),
              match_subpattern_star f rem k' _ σ' (Or.inr rfl)]
            refine valRel_bind (ihSt rem k k' σ σ' hnb hk) ?_
            rintro still σ2 σ2'
            dsimp only
            by_cases hz : rem.length - still.length = 0
            · rw [if_pos ⟨rfl, hz⟩, if_pos ⟨rfl, hz⟩]
              exact rfl
            · rw [if_neg (fun h => hz h.2), if_neg (fun h => hz h.2)]
              exact rfl
    · rintro rem sps sps' σ σ' hnb hsim
      cases hsim with
      | nil => exact rfl
      | cons hs hl =>
        rename_i a b l l'
        rw [match_all_cons, match_all_cons]
        rw [noBackRefL_cons, Bool.and_eq_true] at hnb
        refine valRel_bind (ihS rem a b σ σ' hnb.1 hs) ?_
        rintro r σ2 σ2'
        dsimp only
        cases r with
        | none => exact rfl
        | some off =>
          try dsimp only
          cases hsf : sliceFrom rem off with
          | ok rem2 =>
            rw [Res.bind_ok, Res.bind_ok]
            refine valRel_bind (ihM rem2 l l' σ2 σ2' hnb.2 hl) ?_
            rintro r2 σ3 σ3'
            dsimp only
            cases r2 with
            | none => exact rfl
            | some off2 => exact rfl
          | crash => trivial
          | fuelOut => exact absurd hsf (sliceFrom_ne_fuelOut _ _)
    · rintro suffix n sp sp' σ σ' hnb hsim
      cases suffix with
      | nil => exact rfl
      | cons ch cs =>
        rw [find_match_start_cons, find_match_start_cons]
        refine valRel_bind (ihS (ch :: cs) sp sp' σ σ' hnb hsim) ?_
        rintro r σ2 σ2'
        dsimp only
        cases r with
        | some off =>
          try dsimp only
          cases hsf : sliceFrom (ch :: cs) off with
          | ok rem2 => exact rfl
          | crash => trivial
          | fuelOut => exact absurd hsf (sliceFrom_ne_fuelOut _ _)
        | none => exact ihF cs (n + 1) sp sp' σ2 σ2' hnb hsim
    · rintro remaining prev prev' sps sps' σ σ' hnb hsim hprev
      cases hsim with
      | nil => exact rfl
      | cons hs hl =>
        rename_i sp sp' rest rest'
        rw [match_loop_cons, match_loop_cons]
        rw [noBackRefL_cons, Bool.and_eq_true] at hnb
        refine valRel_bind (ihS remaining sp sp' σ σ' hnb.1 hs) ?_
        rintro r σ1 σ1'
        dsimp only
        cases r with
        | some off =>
          try dsimp only
          cases hsf : sliceFrom remaining off with
          | ok rem2 =>
            rw [Res.bind_ok, Res.bind_ok]
            exact ihL rem2 (some (sp, remaining)) (some (sp', remaining)) rest rest'
              σ1 σ1' hnb.2 hl ⟨hs, rfl⟩
          | crash => trivial
          | fuelOut => exact absurd hsf (sliceFrom_ne_fuelOut _ _)
        | none =>
          cases prev with
          | none =>
            cases prev' with
            | none => exact rfl
            | some pb => exact hprev.elim
          | some pa =>
            obtain ⟨psp, prem⟩ := pa
            cases prev' with
            | none => exact hprev.elim
            | some pb =>
              obtain ⟨psp', prem'⟩ := pb
              obtain ⟨hpsim, hpeq⟩ := hprev
              subst hpeq
              try dsimp only
              have helig := SimS_isEligible hpsim
              by_cases he : isEligible psp = true
              · have he2 : isEligible psp' = true := helig ▸ he
                rw [if_pos he, if_pos he2]
                have hmod : psp.modifier = psp'.modifier := by
                  cases hpsim with | mk m hk => rfl
                rw [← hmod]
                cases hsl : (if psp.modifier = some Modifier.ZeroOrMore then Res.ok prem
                    else sliceFrom prem 1) with
                | ok rem2 =>
                  rw [Res.bind_ok, Res.bind_ok]
                  refine valRel_bind (ihF rem2 0 sp sp' σ1 σ1' hnb.1 hs) ?_
                  rintro fr σ2 σ2'
                  dsimp only
                  cases fr with
                  | none => exact rfl
                  | some p =>
                    obtain ⟨w, mstart⟩ := p
                    try dsimp only
                    cases hs2 : sliceFrom rem2 mstart with
                    | ok rem3 =>
                      rw [Res.bind_ok, Res.bind_ok]
                      refine valRel_bind (ihS rem3 sp sp' σ2 σ2' hnb.1 hs) ?_
                      rintro r2 σ3 σ3'
                      dsimp only
                      cases r2 with
                      | none => trivial
                      | some off2 =>
                        try dsimp only
                        cases hs3 : sliceFrom rem3 off2 with
                        | ok rem4 =>
                          rw [Res.bind_ok, Res.bind_ok]
                          exact ihL rem4 (some (sp, rem3)) (some (sp', rem3))
                            rest rest' σ3 σ3' hnb.2 hl ⟨hs, rfl⟩
                        | crash => trivial
                        | fuelOut => exact absurd hs3 (sliceFrom_ne_fuelOut _ _)
                    | crash => trivial
                    | fuelOut => exact absurd hs2 (sliceFrom_ne_fuelOut _ _)
                | crash => trivial
                | fuelOut =>
                  exfalso
                  by_cases hz : psp.modifier = some Modifier.ZeroOrMore
                  · rw [if_pos hz] at hsl
                    exact Res.noConfusion hsl
                  · rw [if_neg hz] at hsl
                    exact sliceFrom_ne_fuelOut _ _ hsl
              · have he2 : ¬(isEligible psp' = true) := fun h => he (helig.symm ▸ h)
                rw [if_neg he, if_neg he2]
                exact rfl
    · rintro input pat force σ σ' hnb
      rw [match_pattern_succ, match_pattern_succ]
      have hps := parse_sim_pattern pat σ.counter σ'.counter
      cases hp : parse_pattern pat σ.counter with
      | fuelOut => exact absurd hp (parse_pattern_ne_fuelOut _ _)
      | crash =>
        rw [hp] at hps
        cases hp' : parse_pattern pat σ'.counter with
        | fuelOut => exact absurd hp' (parse_pattern_ne_fuelOut _ _)
        | ok pr' => rw [hp'] at hps; exact hps.elim
        | crash => trivial
      | ok pr =>
        obtain ⟨sps, c2⟩ := pr
        rw [hp] at hps
        cases hp' : parse_pattern pat σ'.counter with
        | fuelOut => exact absurd hp' (parse_pattern_ne_fuelOut _ _)
        | crash => rw [hp'] at hps; exact hps.elim
        | ok pr' =>
          obtain ⟨sps', c2'⟩ := pr'
          rw [hp'] at hps
          have hsim : SimL sps sps' := hps
          have hnbs := hnb sps c2 hp
          dsimp only
          cases hsim with
          | nil => exact rfl
          | cons hs hl =>
            rename_i sp0 sp0' rest rest'
            try dsimp only
            cases force with
            | true =>
              rw [if_pos rfl, if_pos rfl]
              refine valRel_bind (ihL input none none (sp0 :: rest) (sp0' :: rest')
                ⟨σ.table, c2⟩ ⟨σ'.table, c2'⟩ hnbs (SimL.cons hs hl) True.intro) ?_
              rintro fr σ2 σ2'
              dsimp only
              cases fr with
              | none => exact rfl
              | some finalRem => exact rfl
            | false =>
              rw [if_neg Bool.false_ne_true, if_neg Bool.false_ne_true]
              have hnbc := hnbs
              rw [noBackRefL_cons, Bool.and_eq_true] at hnbc
              have hki := SimS_kindIsInputStart hs
              by_cases hk0 : kindIsInputStart sp0.kind = true
              · have hk02 : kindIsInputStart sp0'.kind = true := hki ▸ hk0
                rw [if_pos hk0, if_pos hk02]
                refine valRel_bind (ihL input none none rest rest' ⟨σ.table, c2⟩
                  ⟨σ'.table, c2'⟩ hnbc.2 hl True.intro) ?_
                rintro fr σ2 σ2'
                dsimp only
                cases fr with
                | none => exact rfl
                | some finalRem => exact rfl
              · have hk02 : ¬(kindIsInputStart sp0'.kind = true) :=
                  fun h => hk0 (hki.symm ▸ h)
                rw [if_neg hk0, if_neg hk02]
                refine valRel_bind (ihF input 0 sp0 sp0' ⟨σ.table, c2⟩
                  ⟨σ'.table, c2'⟩ hnbc.1 hs) ?_
                rintro fr σ2 σ2'
                dsimp only
                cases fr with
                | none => exact rfl
                | some p =>
                  obtain ⟨rem, n⟩ := p
                  try dsimp only
                  refine valRel_bind (ihL rem none none rest rest' σ2 σ2'
                    hnbc.2 hl True.intro) ?_
                  rintro fr2 σ3 σ3'
                  dsimp only
                  cases fr2 with
                  | none => exact rfl
                  | some finalRem => exact rfl

/-- C4 counterexample: compiling and matching the same pattern twice in the
same process does not always yield identical results.  Pattern `(\1a|b)` on
input `ba`: the first invocation (fresh process state) matches `b` and
records capture 0; the second invocation's `\1` now sees that capture, so
the alternative `\1a` matches `ba` and the reported span grows from (0,1)
to (0,2). -/
theorem C4_counterexample :
    ∃ σ1 σ2 : GState,
      match_pattern 40 ('b' :: 'a' :: [])
          ('(' :: '\\' :: '1' :: 'a' :: '|' :: 'b' :: ')' :: []) false ⟨[], 0⟩ =
        .ok (some (0, 1), σ1) ∧
      match_pattern 40 ('b' :: 'a' :: [])
          ('(' :: '\\' :: '1' :: 'a' :: '|' :: 'b' :: ')' :: []) false σ1 =
        .ok (some (0, 2), σ2) ∧
      (some ((0, 1) : Nat × Nat)) ≠ some ((0, 2) : Nat × Nat) :=
  ⟨⟨[(0, ['b'])], 1⟩, ⟨[(1, ['b', 'a']), (0, ['b'])], 2⟩, rfl, rfl, by decide⟩

/-- C4 (amended): two successive top-level match invocations with identical
arguments return identical match results, provided the pattern's compiled
node sequence contains no backreference nodes (with `BackRef` nodes the
captures recorded by the first invocation persist in the process-global
table and can change the second invocation's result). -/
theorem C4_no_backref_repeatable (f : Nat) (input pat : List Char)
    (force : Bool) (σ0 σ1 σ2 : GState) (r1 r2 : Option (Nat × Nat))
    (sps : List SubPattern) (c2 : Nat)
    (hp : parse_pattern pat σ0.counter = .ok (sps, c2))
    (hnb : noBackRefL sps = true)
    (h1 : match_pattern f input pat force σ0 = .ok (r1, σ1))
    (h2 : match_pattern f input pat force σ1 = .ok (r2, σ2)) :
    r1 = r2 := by
  obtain ⟨-, -, -, -, -, -, -, -, -, hP⟩ := match_sim f
  have harg : ∀ (sps' : List SubPattern) (c2' : Nat),
      parse_pattern pat σ0.counter = .ok (sps', c2') → noBackRefL sps' = true := by
    intro sps' c2' hp'
    rw [hp] at hp'
    obtain ⟨hs, -⟩ := ok_pair_inv hp'
    exact hs ▸ hnb
  have hv := hP input pat force σ0 σ1 harg
  rw [h1, h2] at hv
  exact hv

/-- Witness for C4 (amended): pattern `ab` (no backreferences) on input `ab`
gives the span (0,2) on both of two successive invocations. -/
theorem C4_witness :
    (parse_pattern ('a' :: 'b' :: []) (GState.counter ⟨[], 0⟩) =
      .ok ([SubPattern.mk (.Literal 'a') none, SubPattern.mk (.Literal 'b') none], 0)) ∧
    noBackRefL [SubPattern.mk (.Literal 'a') none, SubPattern.mk (.Literal 'b') none] = true ∧
    match_pattern 40 ('a' :: 'b' :: []) ('a' :: 'b' :: []) false ⟨[], 0⟩ =
      .ok (some (0, 2), ⟨[], 0⟩) ∧
    (some ((0, 2) : Nat × Nat)) = some ((0, 2) : Nat × Nat) :=
  ⟨rfl, rfl, rfl,
    C4_no_backref_repeatable 40 ('a' :: 'b' :: []) ('a' :: 'b' :: []) false
      ⟨[], 0⟩ ⟨[], 0⟩ ⟨[], 0⟩ (some (0, 2)) (some (0, 2))
      [SubPattern.mk (.Literal 'a') none, SubPattern.mk (.Literal 'b') none] 0
      rfl rfl rfl rfl⟩
